import Mathlib

/-!
Verification development for the Automated Global Tour Planner's
trip-planning engine (backend/services/optimizer.py, budget.py,
country_selector.py, backend/config.py).

Embedding conventions:
* Python floats holding money amounts are modelled as exact rationals (ℚ);
  geographic trigonometry is modelled over the reals (ℝ).
* The country catalog dict `countries_data` is modelled as a total lookup
  `String → CountryData` for the optimizer/budget modules (every claim only
  exercises keys present in the catalog, where a Python dict lookup and the
  total function agree), and as an insertion-ordered association list
  `List (String × CountryData)` for the selector, which iterates the dict.
* Coordinates live in a separate lookup `String → ℝ × ℝ` so that the
  cost/selection functions stay computable.
* The routing code only consumes distances through `get_distance`; the
  routing and budget-enforcement embeddings take the distance oracle as a
  parameter `dist : String → String → ℚ`, so their theorems hold for every
  oracle, in particular for the cached haversine one (modelled separately
  over ℝ).
* Python `int(x)` on a nonnegative float is truncation toward zero,
  modelled by `pyInt`.
* Python's `while` loops are modelled with an explicit iteration budget
  (`fuel`); the termination theorems show the budget suffices.
-/

/- ── Configuration constants (backend/config.py) ───────────────────── -/

def MIN_DAYS_PER_COUNTRY : ℕ := 2

def BUDGET_SAFETY_MARGIN : ℚ := 9 / 10

def TSP_2OPT_MAX_ITERATIONS : ℕ := 100

noncomputable def EARTH_RADIUS_KM : ℝ := 6371

/- ── Data model ────────────────────────────────────────────────────── -/

/-- One catalog record (the cost/interest fields of a `countries_data`
entry; coordinates are kept in a separate lookup). -/
structure CountryData where
  avg_travel_cost : ℚ
  avg_accommodation_cost : ℚ
  interests : List String
deriving DecidableEq

/-- Python `int(q)` : truncation toward zero. -/
def pyInt (q : ℚ) : ℤ := if q < 0 then -⌊-q⌋ else ⌊q⌋

/-- `len(set(d.interests) & selected)` : number of distinct interest tags
of a record that occur in the selected interest set. -/
def data_interest_score (d : CountryData) (selected : List String) : ℕ :=
  (d.interests.dedup.filter (fun t => t ∈ selected)).length

/-- `calculate_interest_score` / `interest_score`: score of a country by
catalog lookup. -/
def interest_score (data : String → CountryData) (country : String)
    (selected : List String) : ℕ :=
  data_interest_score (data country) selected

/-- Minimum cost to visit a country: travel + minimum-stay accommodation
(`CountrySelector.minimum_cost`, also inlined in `_find_worst_value`). -/
def data_minimum_cost (d : CountryData) : ℚ :=
  d.avg_travel_cost + d.avg_accommodation_cost * MIN_DAYS_PER_COUNTRY

/- ── Haversine distance and cache (optimizer.py lines 34-75) ───────── -/

noncomputable def radians (x : ℝ) : ℝ := x * (Real.pi / 180)

/-- `math.atan2` modelled piecewise over ℝ. -/
noncomputable def atan2 (y x : ℝ) : ℝ :=
  if 0 < x then Real.arctan (y / x)
  else if x < 0 ∧ 0 ≤ y then Real.arctan (y / x) + Real.pi
  else if x < 0 then Real.arctan (y / x) - Real.pi
  else if 0 < y then Real.pi / 2
  else if y < 0 then -(Real.pi / 2)
  else 0

/-- `TourOptimizer.haversine_distance`. -/
noncomputable def haversine_distance (coord1 coord2 : ℝ × ℝ) : ℝ :=
  let lat1 := radians coord1.1
  let lon1 := radians coord1.2
  let lat2 := radians coord2.1
  let lon2 := radians coord2.2
  let dlat := lat2 - lat1
  let dlon := lon2 - lon1
  let a := Real.sin (dlat / 2) ^ 2 +
    Real.cos lat1 * Real.cos lat2 * Real.sin (dlon / 2) ^ 2
  let c := 2 * atan2 (Real.sqrt a) (Real.sqrt (1 - a))
  EARTH_RADIUS_KM * c

/-- A distance-cache entry maps an ordered key pair to a stored distance. -/
abbrev DistCache : Type := List ((String × String) × ℝ)

def cache_lookup (cache : DistCache) (a b : String) : Option ℝ :=
  ((cache.find? (fun e => e.1.1 == a && e.1.2 == b)).map (fun e => e.2))

/-- `TourOptimizer.get_distance`: look the pair up under both orientations,
otherwise compute and memoise under the forward key.  Returns the value and
the updated cache (the Python method mutates `self._distance_cache`). -/
noncomputable def get_distance (coords : String → ℝ × ℝ) (cache : DistCache)
    (country_a country_b : String) : ℝ × DistCache :=
  match cache_lookup cache country_a country_b with
  | some d => (d, cache)
  | none =>
    match cache_lookup cache country_b country_a with
    | some d => (d, cache)
    | none =>
      let d := haversine_distance (coords country_a) (coords country_b)
      (d, cache ++ [((country_a, country_b), d)])

/-- A cache is coherent when every stored value is the haversine distance
of its key pair. -/
def CacheCoherent (coords : String → ℝ × ℝ) (cache : DistCache) : Prop :=
  ∀ e ∈ cache, e.2 = haversine_distance (coords e.1.1) (coords e.1.2)

/- ── TSP solver (optimizer.py lines 79-164) ────────────────────────── -/

/-- Python `min(lst, key=k)`: first element with minimal key (ties keep the
earliest).  `min` on an empty list raises in Python; the `""` default is
never reached by the callers below. -/
def py_min_by (key : String → ℚ) : List String → String
  | [] => ""
  | x :: xs => xs.foldl (fun best c => if key c < key best then c else best) x

/-- The `while to_visit:` loop of `nearest_neighbor_tsp`; `fuel` is the
iteration budget (`to_visit.length` iterations always suffice, and the
caller supplies exactly that). -/
def nn_loop (dist : String → String → ℚ) : ℕ → List String → String → List String
  | 0, _, _ => []
  | _ + 1, [], _ => []
  | fuel + 1, to_visit@(_ :: _), current =>
    let nearest := py_min_by (dist current) to_visit
    nearest :: nn_loop dist fuel (to_visit.erase nearest) nearest

/-- `TourOptimizer.nearest_neighbor_tsp`. -/
def nearest_neighbor_tsp (dist : String → String → ℚ)
    (countries : List String) (home : String) : List String :=
  let to_visit := countries.filter (fun c => c ≠ home)
  if to_visit = [] then [home, home]
  else [home] ++ nn_loop dist to_visit.length to_visit home ++ [home]

/-- `_route_total_distance`: sum of consecutive leg distances. -/
def route_total_distance (dist : String → String → ℚ) (route : List String) : ℚ :=
  ((List.range (route.length - 1)).map
    (fun i => dist (route.getD i "") (route.getD (i + 1) ""))).sum

/-- `best_route[:i] + best_route[i:j+1][::-1] + best_route[j+1:]`. -/
def reverse_segment (l : List String) (i j : ℕ) : List String :=
  l.take i ++ ((l.drop i).take (j + 1 - i)).reverse ++ l.drop (j + 1)

/-- The `(i, j)` pairs scanned by one 2-opt pass:
`for i in range(1, n-2): for j in range(i+1, n-1)`. -/
def two_opt_pairs (n : ℕ) : List (ℕ × ℕ) :=
  (List.range' 1 (n - 3)).flatMap
    (fun i => (List.range' (i + 1) (n - 1 - (i + 1))).map (fun j => (i, j)))

/-- Body of the inner 2-opt scan: try one segment reversal on the current
best route, keep it if it strictly shortens the route. -/
def two_opt_step (dist : String → String → ℚ)
    (acc : List String × ℚ × Bool) (ij : ℕ × ℕ) : List String × ℚ × Bool :=
  let new_route := reverse_segment acc.1 ij.1 ij.2
  let new_distance := route_total_distance dist new_route
  if new_distance < acc.2.1 then (new_route, new_distance, true) else acc

/-- One pass of the `while improved` loop (the double `for`). -/
def two_opt_pass (dist : String → String → ℚ)
    (best : List String) (best_distance : ℚ) : List String × ℚ × Bool :=
  (two_opt_pairs best.length).foldl (two_opt_step dist) (best, best_distance, false)

/-- `while improved and iterations < TSP_2OPT_MAX_ITERATIONS`. -/
def two_opt_loop (dist : String → String → ℚ) : ℕ → List String → ℚ → List String
  | 0, best, _ => best
  | fuel + 1, best, best_distance =>
    let r := two_opt_pass dist best best_distance
    if r.2.2 then two_opt_loop dist fuel r.1 r.2.1 else r.1

/-- `TourOptimizer.two_opt_improve`. -/
def two_opt_improve (dist : String → String → ℚ) (route : List String) : List String :=
  if route.length ≤ 4 then route
  else two_opt_loop dist TSP_2OPT_MAX_ITERATIONS route (route_total_distance dist route)

/-- `TourOptimizer.solve_tsp`: nearest neighbour + 2-opt. -/
def solve_tsp (dist : String → String → ℚ)
    (countries : List String) (home : String) : List String :=
  two_opt_improve dist (nearest_neighbor_tsp dist countries home)

/- ── Day distribution (optimizer.py lines 168-230) ─────────────────── -/

/-- `m[k] = v` on a Python dict modelled as an insertion-ordered
association list. -/
def dict_set (m : List (String × ℕ)) (k : String) (v : ℕ) : List (String × ℕ) :=
  if m.any (fun p => p.1 == k) then m.map (fun p => if p.1 = k then (k, v) else p)
  else m ++ [(k, v)]

/-- `m[k] += v` (the callers only use it on present keys). -/
def dict_add (m : List (String × ℕ)) (k : String) (v : ℕ) : List (String × ℕ) :=
  m.map (fun p => if p.1 = k then (p.1, p.2 + v) else p)

/-- `m.get(k, d)`. -/
def dict_get (m : List (String × ℕ)) (k : String) (d : ℕ) : ℕ :=
  ((m.find? (fun p => p.1 == k)).map (fun p => p.2)).getD d

/-- `sum(m.values())`. -/
def vals_sum (m : List (String × ℕ)) : ℕ := (m.map (fun p => p.2)).sum

/-- The `for country in sorted_countries: if leftover > 0: ... else: break`
pass distributing truncation leftover one day at a time. -/
def leftover_pass : List String → ℤ → List (String × ℕ) → List (String × ℕ)
  | [], _, m => m
  | c :: rest, left, m =>
    if 0 < left then leftover_pass rest (left - 1) (dict_add m c 1) else m

/-- The first loop of the proportional branch of `distribute_days`:
`days_per_country[country] = MIN_DAYS_PER_COUNTRY` for every interior
stop. -/
def dd_min_assign (countries : List String) : List (String × ℕ) :=
  countries.foldl (fun m c => dict_set m c MIN_DAYS_PER_COUNTRY) []

/-- The second loop of the proportional branch: when the total score and
the remaining-days counter are positive, add each stop's truncated
proportional share `int(remaining_days * score / total_score)`. -/
def dd_additional (score : String → ℕ) (total_score : ℕ) (remaining_days : ℤ)
    (countries : List String) (m : List (String × ℕ)) : List (String × ℕ) :=
  countries.foldl (fun m c =>
    if 0 < total_score ∧ 0 < remaining_days then
      dict_add m c (pyInt ((remaining_days : ℚ) * (score c : ℚ) / (total_score : ℚ))).toNat
    else m) m

/-- `sorted(countries, key=lambda x: (score[x], -days[x]), reverse=True)`
as a stable descending merge sort. -/
def dd_sorted (score : String → ℕ) (m1 : List (String × ℕ))
    (countries : List String) : List String :=
  countries.mergeSort (fun a b =>
    decide (score b < score a ∨
      (score b = score a ∧
        dict_get m1 a MIN_DAYS_PER_COUNTRY ≤ dict_get m1 b MIN_DAYS_PER_COUNTRY)))

/-- `TourOptimizer.distribute_days`.  `route[1:-1]` is `(drop 1).dropLast`;
the float division `remaining_days * score / total_score` is modelled as
exact rational division truncated by `pyInt`. -/
def distribute_days (data : String → CountryData) (total_days : ℕ)
    (route : List String) (selected_interests : List String) : List (String × ℕ) :=
  let countries := (route.drop 1).dropLast
  if countries = [] then []
  else
    let score := fun c => interest_score data c selected_interests
    let total_score := (countries.map score).sum
    if total_score = 0 then
      let base_days := total_days / countries.length
      countries.map (fun c => (c, max base_days MIN_DAYS_PER_COUNTRY))
    else
      let m0 := dd_min_assign countries
      let remaining_days : ℤ :=
        (total_days : ℤ) - (MIN_DAYS_PER_COUNTRY : ℤ) * countries.length
      let m1 := dd_additional score total_score remaining_days countries m0
      let leftover : ℤ := (total_days : ℤ) - (vals_sum m1 : ℤ)
      leftover_pass (dd_sorted score m1 countries) leftover m1

/- ── Budget service (budget.py) ────────────────────────────────────── -/

/-- `calculate_country_cost(country, days)["total"]`. -/
def calculate_country_cost_total (data : String → CountryData)
    (country : String) (days : ℕ) : ℚ :=
  (data country).avg_travel_cost + (data country).avg_accommodation_cost * days

/-- `BudgetService.calculate_total_cost`: per-interior-stop cost plus the
return flight charged on `route[-2]`. -/
def calculate_total_cost (data : String → CountryData) (route : List String)
    (days_distribution : List (String × ℕ)) : ℚ :=
  let interior := (route.drop 1).dropLast
  let base := (interior.map (fun c =>
    calculate_country_cost_total data c
      (dict_get days_distribution c MIN_DAYS_PER_COUNTRY))).sum
  base + (if 2 ≤ route.length then (data (route.getD (route.length - 2) "")).avg_travel_cost else 0)

/-- The cost-per-interest ratio of `_find_worst_value`; a zero interest
match is `float("inf")`, modelled as `⊤` in `WithTop ℚ`. -/
def value_ratio (data : String → CountryData) (interests : List String)
    (country : String) : WithTop ℚ :=
  let min_cost := data_minimum_cost (data country)
  let interest_match := interest_score data country interests
  if interest_match = 0 then ⊤ else ((min_cost / (interest_match : ℚ) : ℚ) : WithTop ℚ)

/-- One iteration of the `for country in countries` loop of
`_find_worst_value`: keep the candidate whose ratio strictly exceeds the
running worst. -/
def worst_step (data : String → CountryData) (interests : List String)
    (acc : String × WithTop ℚ) (c : String) : String × WithTop ℚ :=
  if acc.2 < value_ratio data interests c then (c, value_ratio data interests c) else acc

/-- `BudgetService._find_worst_value`: starts from `countries[0]` with
ratio `0.0` and keeps the first strictly larger ratio.  (`countries[0]` on
an empty list raises in Python; the `""` default is never reached by the
caller, which guarantees at least two entries.) -/
def find_worst_value (data : String → CountryData) (countries : List String)
    (interests : List String) : String :=
  (countries.foldl (worst_step data interests) (countries.headD "", (0 : WithTop ℚ))).1

/-- Structured rendering of the warning strings `enforce_budget` emits. -/
inductive BudgetWarning where
  | removed (country : String) (cost : ℚ)
  | insufficient (budget : ℚ) (min_needed : ℚ)
deriving DecidableEq

/-- The `while working:` loop of `BudgetService.enforce_budget`, with an
explicit iteration budget.  `none` means the budget was exhausted; the
termination theorem shows `working.length` iterations always suffice. -/
def enforce_budget_loop (dist : String → String → ℚ) (data : String → CountryData)
    (home_country : String) (budget : ℚ) (interests : List String) :
    ℕ → List String → List BudgetWarning →
    Option (List String × List BudgetWarning × List (String × ℕ))
  | fuel, working, warnings =>
    if working = [] then some (working, warnings, [])
    else
      match fuel with
      | 0 => none
      | fuel' + 1 =>
        let route := solve_tsp dist working home_country
        let total_days := max (working.length * MIN_DAYS_PER_COUNTRY) 1
        let days_dist := distribute_days data total_days route interests
        let total_cost := calculate_total_cost data route days_dist
        if total_cost ≤ budget then some (working, warnings, days_dist)
        else if working.length ≤ 1 then
          some ([], warnings ++ [BudgetWarning.insufficient budget total_cost], [])
        else
          let worst := find_worst_value data working interests
          enforce_budget_loop dist data home_country budget interests fuel'
            (working.erase worst)
            (warnings ++ [BudgetWarning.removed worst
              (calculate_country_cost_total data worst MIN_DAYS_PER_COUNTRY)])

/-- `BudgetService.enforce_budget` (top-level entry). -/
def enforce_budget (dist : String → String → ℚ) (data : String → CountryData)
    (countries : List String) (home_country : String) (budget : ℚ)
    (interests : List String) :
    List String × List BudgetWarning × List (String × ℕ) :=
  (enforce_budget_loop dist data home_country budget interests
    countries.length countries []).getD ([], [], [])

/- ── Country selector (country_selector.py) ────────────────────────── -/

/-- One knapsack item as built by `select_countries`. -/
structure Candidate where
  country : String
  score : ℕ
  min_cost : ℚ
deriving DecidableEq

/-- The candidate-building loop of `select_countries`: every catalog entry
except home with a positive interest score, in catalog order. -/
def build_candidates (catalog : List (String × CountryData))
    (interests : List String) (home_country : String) : List Candidate :=
  catalog.filterMap (fun p =>
    if p.1 = home_country then none
    else
      let score := data_interest_score p.2 interests
      if score = 0 then none
      else some ⟨p.1, score, data_minimum_cost p.2⟩)

/-- `max(self.countries_data[c]["avg_travel_cost"] for c in ...)` — true
maximum of a nonempty catalog (Python `max` raises on an empty one; the
caller only reaches it with a nonempty catalog). -/
def max_travel_cost (catalog : List (String × CountryData)) : ℚ :=
  match catalog with
  | [] => 0
  | p :: rest => rest.foldl (fun acc q => max acc q.2.avg_travel_cost) p.2.avg_travel_cost

/-- `int(candidates[i]["min_cost"] / granularity)` with granularity 10. -/
def knap_cost_units (c : Candidate) : ℕ := (pyInt (c.min_cost / 10)).toNat

/-- The DP table of `_knapsack_select`.  The list holds the processed items
most-recent first (so `knap_dp m (items.reverse) w` is row `dp[n][w]`), and
each cell keeps the single `(score, count)` pair the code stores. -/
def knap_dp (max_items : ℕ) : List Candidate → ℕ → ℕ × ℕ
  | [], _ => (0, 0)
  | it :: earlier, w =>
    let prev := knap_dp max_items earlier w
    if knap_cost_units it ≤ w ∧
        (knap_dp max_items earlier (w - knap_cost_units it)).2 < max_items ∧
        prev.1 < (knap_dp max_items earlier (w - knap_cost_units it)).1 + it.score
    then ((knap_dp max_items earlier (w - knap_cost_units it)).1 + it.score,
          (knap_dp max_items earlier (w - knap_cost_units it)).2 + 1)
    else prev

/-- The backtracking loop of `_knapsack_select` (`chosen[i][w]` holds
exactly when the take-branch of the DP fired). -/
def knap_backtrack (max_items : ℕ) : List Candidate → ℕ → List Candidate
  | [], _ => []
  | it :: earlier, w =>
    if knap_cost_units it ≤ w ∧
        (knap_dp max_items earlier (w - knap_cost_units it)).2 < max_items ∧
        (knap_dp max_items earlier w).1 <
          (knap_dp max_items earlier (w - knap_cost_units it)).1 + it.score
    then it :: knap_backtrack max_items earlier (w - knap_cost_units it)
    else knap_backtrack max_items earlier w

/-- `CountrySelector._knapsack_select`, returning the selected candidate
records (the Python function returns their `country` fields; see
`knapsack_select`). -/
def knapsack_select_core (candidates : List Candidate) (budget : ℚ)
    (max_items : ℕ) : List Candidate :=
  let W := pyInt (budget / 10)
  if W ≤ 0 then [] else knap_backtrack max_items candidates.reverse W.toNat

/-- `CountrySelector._knapsack_select`. -/
def knapsack_select (candidates : List Candidate) (budget : ℚ)
    (max_items : ℕ) : List String :=
  (knapsack_select_core candidates budget max_items).map (fun c => c.country)

/-- Sort key order of `_greedy_select`: score descending, then
cost-per-interest ascending (infinite on zero score). -/
def greedy_le (a b : Candidate) : Bool :=
  decide (b.score < a.score ∨
    (b.score = a.score ∧
      (if a.score = 0 then (⊤ : WithTop ℚ) else ((a.min_cost / (a.score : ℚ) : ℚ) : WithTop ℚ)) ≤
        (if b.score = 0 then (⊤ : WithTop ℚ) else ((b.min_cost / (b.score : ℚ) : ℚ) : WithTop ℚ))))

/-- One iteration of the `_greedy_select` accumulation loop.  (Once the
`max_items` cap is reached nothing is ever added again, which models
Python's `break`.) -/
def greedy_step (budget : ℚ) (max_items : ℕ)
    (acc : List Candidate × ℚ) (c : Candidate) : List Candidate × ℚ :=
  if max_items ≤ acc.1.length then acc
  else if acc.2 + c.min_cost ≤ budget then (acc.1 ++ [c], acc.2 + c.min_cost)
  else acc

/-- `CountrySelector._greedy_select` accumulation loop, returning the
selected candidates and their running cost. -/
def greedy_select_core (candidates : List Candidate) (budget : ℚ)
    (max_items : ℕ) : List Candidate × ℚ :=
  (candidates.mergeSort greedy_le).foldl (greedy_step budget max_items) ([], 0)

/-- `CountrySelector._greedy_select`. -/
def greedy_select (candidates : List Candidate) (budget : ℚ)
    (max_items : ℕ) : List String :=
  (greedy_select_core candidates budget max_items).1.map (fun c => c.country)

/-- Working budget of `select_countries`: safety margin applied, worst-case
return leg reserved. -/
def working_budget (catalog : List (String × CountryData)) (budget : ℚ) : ℚ :=
  budget * BUDGET_SAFETY_MARGIN - max_travel_cost catalog

/-- `CountrySelector.select_countries`. -/
def select_countries (catalog : List (String × CountryData))
    (interests : List String) (num_countries : ℕ) (home_country : String)
    (budget : ℚ) : List String :=
  let candidates := build_candidates catalog interests home_country
  if candidates = [] then []
  else
    let wb := working_budget catalog budget
    if wb ≤ 0 then []
    else if candidates.length ≤ 50 then knapsack_select candidates wb num_countries
    else greedy_select candidates wb num_countries

/- ── Concrete catalog instances used by witnesses and counterexamples ─ -/

/-- A catalog whose destinations match no interest tag (zero-score branch
of the Allocator). -/
def zcat : String → CountryData := fun c =>
  if c = "A" then ⟨100, 50, []⟩
  else if c = "B" then ⟨200, 30, []⟩
  else if c = "C" then ⟨300, 20, []⟩
  else ⟨0, 0, []⟩

/-- A catalog whose destinations match the tag `"x"` (proportional branch
of the Allocator; also used for the Enforcer instances). -/
def pcat : String → CountryData := fun c =>
  if c = "A" then ⟨100, 50, ["x"]⟩
  else if c = "B" then ⟨200, 30, ["x"]⟩
  else ⟨0, 0, []⟩

/-- The tight-budget scenario of the spec: minimum costs 500 / 800 / 1200
and interest scores 1 / 4 / 1 against interests `a,b,c,d`. -/
def wcat : String → CountryData := fun c =>
  if c = "P" then ⟨100, 200, ["a"]⟩
  else if c = "Q" then ⟨400, 200, ["a", "b", "c", "d"]⟩
  else if c = "R" then ⟨1000, 100, ["a"]⟩
  else ⟨0, 0, []⟩

/-- Catalog records for the selector counterexample: two destinations of
minimum cost 19 each (travel 15, accommodation 2/day). -/
def scat : String → CountryData := fun c =>
  if c = "A" then ⟨15, 2, ["x"]⟩
  else if c = "B" then ⟨15, 2, ["x"]⟩
  else ⟨0, 0, []⟩

/-- The selector counterexample catalog as the insertion-ordered list the
selector iterates. -/
def scatalog : List (String × CountryData) :=
  [("H", scat "H"), ("A", scat "A"), ("B", scat "B")]

/-- Knapsack counterexample items: with capacity 30 (budget units 3) and a
cardinality cap of 2, the DP returns {A, B} (score 7) although {A, E}
(score 9) is feasible. -/
def kcands : List Candidate :=
  [⟨"A", 4, 20⟩, ⟨"B", 3, 10⟩, ⟨"C", 3, 10⟩, ⟨"E", 5, 10⟩]

/-- Cardinality counterexample items: both fit a budget of 40. -/
def ccands : List Candidate := [⟨"A", 1, 19⟩, ⟨"B", 1, 19⟩]

/-- The constant-zero distance oracle (used where the claims do not depend
on actual distances). -/
def zeroDist : String → String → ℚ := fun _ _ => 0

/-- What a 2-opt rewrite step preserves about a route: its multiset of
stops and its two fixed home endpoints. -/
def RouteInv (r0 r : List String) : Prop :=
  r.Perm r0 ∧ r.head? = r0.head? ∧ r.getLast? = r0.getLast?

/-- The cost the Enforcer's loop body computes for a working set: route it,
allocate minimum days, and price the result (the three `let`s at the top of
the `while` body of `enforce_budget`). -/
def iteration_cost (dist : String → String → ℚ) (data : String → CountryData)
    (home_country : String) (interests : List String)
    (working : List String) : ℚ :=
  let route := solve_tsp dist working home_country
  let total_days := max (working.length * MIN_DAYS_PER_COUNTRY) 1
  calculate_total_cost data route (distribute_days data total_days route interests)

/- ════════════════════════════════════════════════════════════════════
   Theorems
   ════════════════════════════════════════════════════════════════════ -/

/- ── Claim C10: trivial-route total cost ───────────────────────────── -/

/-- Claim C10: for the trivial route `[home, home]` and any day
allocation, `calculate_total_cost` returns home's one-way travel cost —
the return-leg term charges `route[-2]`, which is home itself — rather
than 0. -/
theorem claim_C10 (data : String → CountryData) (home : String)
    (days : List (String × ℕ)) :
    calculate_total_cost data [home, home] days = (data home).avg_travel_cost := by
  simp [calculate_total_cost]

/- ── Claim C8: no underflow signalling in distribute_days ──────────── -/

/-- Claim C8 (code bug): with `total_days = 3` and two interior stops the
precondition `total_days ≥ interior_count × minimum-stay-days` is violated,
yet `distribute_days` signals nothing: it silently returns the mapping
`{A: 2, B: 2}`, whose values sum to 4 ≠ 3. -/
theorem claim_C8_code_bug :
    distribute_days zcat 3 ["H", "A", "B", "H"] ["w"] = [("A", 2), ("B", 2)] ∧
    vals_sum (distribute_days zcat 3 ["H", "A", "B", "H"] ["w"]) = 4 := by
  constructor <;> decide

/- ── Claim C1: allocation exactness ────────────────────────────────── -/

/-- Claim C1 (counterexample): `total_days = 7` with three interior stops
satisfies `7 ≥ 3 × 2`, yet in the zero-total-score branch the returned
allocation sums to 6, not 7. -/
theorem claim_C1_counterexample :
    MIN_DAYS_PER_COUNTRY * (((["H", "A", "B", "C", "H"] : List String).drop 1).dropLast).length ≤ 7 ∧
    vals_sum (distribute_days zcat 7 ["H", "A", "B", "C", "H"] ["w"]) = 6 := by
  constructor <;> decide

/- ── Claim C9: distance symmetry ───────────────────────────────────── -/

/-- Squared sine of a halved difference is symmetric in its endpoints. -/
theorem sin_half_sub_sq_symm (x y : ℝ) :
    Real.sin ((x - y) / 2) ^ 2 = Real.sin ((y - x) / 2) ^ 2 := by
  rw [show x - y = -(y - x) by ring, neg_div, Real.sin_neg, neg_sq]

/-- The haversine formula is symmetric in its two coordinates. -/
theorem haversine_distance_symm (c1 c2 : ℝ × ℝ) :
    haversine_distance c1 c2 = haversine_distance c2 c1 := by
  simp only [haversine_distance]
  rw [sin_half_sub_sq_symm (radians c2.1) (radians c1.1),
    sin_half_sub_sq_symm (radians c2.2) (radians c1.2),
    mul_comm (Real.cos (radians c1.1)) (Real.cos (radians c2.1))]

/-- A successful cache lookup on a coherent cache returns the haversine
distance of the key pair. -/
theorem cache_lookup_coherent (coords : String → ℝ × ℝ) (cache : DistCache)
    (a b : String) (d : ℝ) (h : CacheCoherent coords cache)
    (hf : cache_lookup cache a b = some d) :
    d = haversine_distance (coords a) (coords b) := by
  unfold cache_lookup at hf
  cases hfind : cache.find? (fun e => e.1.1 == a && e.1.2 == b) with
  | none =>
    rw [hfind] at hf
    exact absurd hf (by simp)
  | some e =>
    rw [hfind] at hf
    simp only [Option.map_some'] at hf
    have hmem : e ∈ cache := List.mem_of_find?_eq_some hfind
    have hpred := List.find?_some hfind
    simp only [Bool.and_eq_true, beq_iff_eq] at hpred
    have hco := h e hmem
    have he2 : e.2 = d := by injection hf
    rw [← he2, hco, hpred.1, hpred.2]

/-- On a coherent cache, `get_distance` always returns the haversine
distance of the two looked-up coordinates. -/
theorem get_distance_val (coords : String → ℝ × ℝ) (cache : DistCache)
    (a b : String) (h : CacheCoherent coords cache) :
    (get_distance coords cache a b).1 = haversine_distance (coords a) (coords b) := by
  unfold get_distance
  cases hf : cache_lookup cache a b with
  | some d =>
    simpa using cache_lookup_coherent coords cache a b d h hf
  | none =>
    cases hr : cache_lookup cache b a with
    | some d =>
      have := cache_lookup_coherent coords cache b a d h hr
      simpa [this] using (haversine_distance_symm (coords b) (coords a))
    | none => simp only []

/-- Claim C9: the haversine distance satisfies `d(A,B) = d(B,A)` and
`d(A,A) = 0`, and on any coherent cache state the cached variant
`get_distance` returns the same value for `(a, b)` and `(b, a)`. -/
theorem claim_C9 :
    (∀ c1 c2 : ℝ × ℝ, haversine_distance c1 c2 = haversine_distance c2 c1) ∧
    (∀ c : ℝ × ℝ, haversine_distance c c = 0) ∧
    (∀ (coords : String → ℝ × ℝ) (cache : DistCache) (a b : String),
      CacheCoherent coords cache →
      (get_distance coords cache a b).1 = (get_distance coords cache b a).1) := by
  refine ⟨haversine_distance_symm, ?_, ?_⟩
  · intro c
    simp [haversine_distance, atan2, Real.arctan_zero]
  · intro coords cache a b h
    rw [get_distance_val coords cache a b h, get_distance_val coords cache b a h,
      haversine_distance_symm]

/-- Claim C9 witness: the cache-symmetry part applied to the empty cache
(trivially coherent) and two concrete identifiers. -/
theorem claim_C9_witness :
    CacheCoherent (fun _ => (0, 0)) [] ∧
    (get_distance (fun _ => (0, 0)) [] "a" "b").1 =
      (get_distance (fun _ => (0, 0)) [] "b" "a").1 :=
  ⟨fun e he => absurd he (List.not_mem_nil e),
   claim_C9.2.2 (fun _ => (0, 0)) [] "a" "b" (fun e he => absurd he (List.not_mem_nil e))⟩

/- ── Claim C5: worst-value removal ─────────────────────────────────── -/

/-- The `_find_worst_value` fold only ever holds the initial accumulator or
an element of the processed list. -/
theorem worst_foldl_mem (data : String → CountryData) (interests : List String) :
    ∀ (l : List String) (acc : String × WithTop ℚ),
      (l.foldl (worst_step data interests) acc).1 = acc.1 ∨
      (l.foldl (worst_step data interests) acc).1 ∈ l := by
  intro l
  induction l with
  | nil => intro acc; exact Or.inl rfl
  | cons x xs ih =>
    intro acc
    simp only [List.foldl_cons]
    by_cases hx : acc.2 < value_ratio data interests x
    · have hstep : worst_step data interests acc x = (x, value_ratio data interests x) := by
        unfold worst_step; rw [if_pos hx]
      rw [hstep]
      rcases ih (x, value_ratio data interests x) with h | h
      · refine Or.inr ?_
        rw [h]
        exact List.mem_cons_self x xs
      · exact Or.inr (List.mem_cons_of_mem x h)
    · have hstep : worst_step data interests acc x = acc := by
        unfold worst_step; rw [if_neg hx]
      rw [hstep]
      rcases ih acc with h | h
      · exact Or.inl h
      · exact Or.inr (List.mem_cons_of_mem x h)

/-- The chosen worst-value country is an element of a nonempty input. -/
theorem find_worst_value_mem (data : String → CountryData)
    (countries : List String) (interests : List String) (h : countries ≠ []) :
    find_worst_value data countries interests ∈ countries := by
  cases countries with
  | nil => exact absurd rfl h
  | cons x xs =>
    unfold find_worst_value
    rcases worst_foldl_mem data interests (x :: xs) ((x :: xs).headD "", (0 : WithTop ℚ)) with
      he | hm
    · rw [he]; exact List.mem_cons_self x xs
    · exact hm

/-- Fold invariant of `_find_worst_value`: the running ratio is monotone,
bounds every processed ratio, and never exceeds the ratio of the currently
held country. -/
theorem worst_foldl_max (data : String → CountryData) (interests : List String) :
    ∀ (l : List String) (acc : String × WithTop ℚ),
      acc.2 ≤ value_ratio data interests acc.1 →
      acc.2 ≤ (l.foldl (worst_step data interests) acc).2 ∧
      (l.foldl (worst_step data interests) acc).2 ≤
        value_ratio data interests (l.foldl (worst_step data interests) acc).1 ∧
      ∀ c ∈ l, value_ratio data interests c ≤ (l.foldl (worst_step data interests) acc).2 := by
  intro l
  induction l with
  | nil =>
    intro acc h
    exact ⟨le_refl _, h, fun c hc => absurd hc (List.not_mem_nil c)⟩
  | cons x xs ih =>
    intro acc h
    simp only [List.foldl_cons]
    by_cases hx : acc.2 < value_ratio data interests x
    · have hstep : worst_step data interests acc x = (x, value_ratio data interests x) := by
        unfold worst_step; rw [if_pos hx]
      rw [hstep]
      obtain ⟨hmono, hub, hall⟩ := ih (x, value_ratio data interests x) (le_refl _)
      refine ⟨le_trans (le_of_lt hx) hmono, hub, ?_⟩
      intro c hc
      rcases List.mem_cons.mp hc with rfl | hcx
      · exact hmono
      · exact hall c hcx
    · have hstep : worst_step data interests acc x = acc := by
        unfold worst_step; rw [if_neg hx]
      rw [hstep]
      obtain ⟨hmono, hub, hall⟩ := ih acc h
      refine ⟨hmono, hub, ?_⟩
      intro c hc
      rcases List.mem_cons.mp hc with rfl | hcx
      · exact le_trans (not_lt.mp hx) hmono
      · exact hall c hcx

/-- With nonnegative catalog costs every value ratio is nonnegative. -/
theorem value_ratio_nonneg (data : String → CountryData) (interests : List String)
    (c : String) (h : 0 ≤ data_minimum_cost (data c)) :
    (0 : WithTop ℚ) ≤ value_ratio data interests c := by
  unfold value_ratio
  by_cases hs : interest_score data c interests = 0
  · rw [if_pos hs]; exact le_top
  · rw [if_neg hs]
    rw [← WithTop.coe_zero, WithTop.coe_le_coe]
    exact div_nonneg h (Nat.cast_nonneg _)

/-- Claim C5: on a nonempty working set with nonnegative catalog costs,
`_find_worst_value` returns a member of the set whose value ratio
(minimum cost over interest score, infinite on zero score) is maximal. -/
theorem claim_C5 (data : String → CountryData) (countries : List String)
    (interests : List String) (hne : countries ≠ [])
    (hcost : ∀ c ∈ countries, 0 ≤ data_minimum_cost (data c)) :
    find_worst_value data countries interests ∈ countries ∧
    ∀ c ∈ countries,
      value_ratio data interests c ≤
        value_ratio data interests (find_worst_value data countries interests) := by
  refine ⟨find_worst_value_mem data countries interests hne, ?_⟩
  cases countries with
  | nil => exact absurd rfl hne
  | cons x xs =>
    have hinit : ((x :: xs).headD "", (0 : WithTop ℚ)).2 ≤
        value_ratio data interests ((x :: xs).headD "", (0 : WithTop ℚ)).1 := by
      simp only [List.headD_cons]
      exact value_ratio_nonneg data interests x (hcost x (List.mem_cons_self x xs))
    obtain ⟨hmono, hub, hall⟩ :=
      worst_foldl_max data interests (x :: xs) ((x :: xs).headD "", (0 : WithTop ℚ)) hinit
    intro c hc
    exact le_trans (hall c hc) hub

/-- Claim C5 witness: the spec's tight-budget scenario.  Minimum costs
500/800/1200 with scores 1/4/1 give ratios 500/200/1200; the chooser picks
`"R"` (cost 1200, score 1) — not `"P"` (cost 500, score 1) — and its ratio
dominates the set, by `claim_C5` applied at this input. -/
theorem claim_C5_witness :
    (["P", "Q", "R"] : List String) ≠ [] ∧
    (∀ c ∈ (["P", "Q", "R"] : List String), 0 ≤ data_minimum_cost (wcat c)) ∧
    find_worst_value wcat ["P", "Q", "R"] ["a", "b", "c", "d"] = "R" ∧
    (∀ c ∈ (["P", "Q", "R"] : List String),
      value_ratio wcat ["a", "b", "c", "d"] c ≤
        value_ratio wcat ["a", "b", "c", "d"]
          (find_worst_value wcat ["P", "Q", "R"] ["a", "b", "c", "d"])) := by
  have eP : wcat "P" = ⟨100, 200, ["a"]⟩ := rfl
  have eQ : wcat "Q" = ⟨400, 200, ["a", "b", "c", "d"]⟩ := rfl
  have eR : wcat "R" = ⟨1000, 100, ["a"]⟩ := rfl
  have hcost : ∀ c ∈ (["P", "Q", "R"] : List String), 0 ≤ data_minimum_cost (wcat c) := by
    intro c hc
    fin_cases hc
    · rw [eP]; norm_num [data_minimum_cost, MIN_DAYS_PER_COUNTRY]
    · rw [eQ]; norm_num [data_minimum_cost, MIN_DAYS_PER_COUNTRY]
    · rw [eR]; norm_num [data_minimum_cost, MIN_DAYS_PER_COUNTRY]
  refine ⟨by simp, hcost, ?_, (claim_C5 wcat ["P", "Q", "R"] ["a", "b", "c", "d"] (by simp) hcost).2⟩
  have hP : value_ratio wcat ["a", "b", "c", "d"] "P" = ((500 : ℚ) : WithTop ℚ) := by
    have h1 : interest_score wcat "P" ["a", "b", "c", "d"] = 1 := by decide
    unfold value_ratio; rw [h1, eP]; norm_num [data_minimum_cost, MIN_DAYS_PER_COUNTRY]
  have hQ : value_ratio wcat ["a", "b", "c", "d"] "Q" = ((200 : ℚ) : WithTop ℚ) := by
    have h1 : interest_score wcat "Q" ["a", "b", "c", "d"] = 4 := by decide
    unfold value_ratio; rw [h1, eQ]; norm_num [data_minimum_cost, MIN_DAYS_PER_COUNTRY]
  have hR : value_ratio wcat ["a", "b", "c", "d"] "R" = ((1200 : ℚ) : WithTop ℚ) := by
    have h1 : interest_score wcat "R" ["a", "b", "c", "d"] = 1 := by decide
    unfold value_ratio; rw [h1, eR]; norm_num [data_minimum_cost, MIN_DAYS_PER_COUNTRY]
  unfold find_worst_value
  simp only [List.foldl_cons, List.foldl_nil, List.headD_cons, worst_step, hP, hQ, hR]
  have h0 : ((0 : WithTop ℚ)) < ((500 : ℚ) : WithTop ℚ) := by
    rw [← WithTop.coe_zero, WithTop.coe_lt_coe]; norm_num
  rw [if_pos h0]
  have hnQ : ¬ ((500 : ℚ) : WithTop ℚ) < ((200 : ℚ) : WithTop ℚ) := by
    rw [WithTop.coe_lt_coe]; norm_num
  rw [if_neg hnQ]
  have hpR : ((500 : ℚ) : WithTop ℚ) < ((1200 : ℚ) : WithTop ℚ) := by
    rw [WithTop.coe_lt_coe]; norm_num
  rw [if_pos hpR]

/- ── Claim C7: knapsack cardinality ────────────────────────────────── -/

/-- One-step unfolding of the DP cell recurrence. -/
theorem knap_dp_cons (m : ℕ) (it : Candidate) (earlier : List Candidate) (w : ℕ) :
    knap_dp m (it :: earlier) w =
      if knap_cost_units it ≤ w ∧ (knap_dp m earlier (w - knap_cost_units it)).2 < m ∧
          (knap_dp m earlier w).1 < (knap_dp m earlier (w - knap_cost_units it)).1 + it.score
      then ((knap_dp m earlier (w - knap_cost_units it)).1 + it.score,
            (knap_dp m earlier (w - knap_cost_units it)).2 + 1)
      else knap_dp m earlier w := rfl

/-- One-step unfolding of the backtracking recurrence. -/
theorem knap_backtrack_cons (m : ℕ) (it : Candidate) (earlier : List Candidate) (w : ℕ) :
    knap_backtrack m (it :: earlier) w =
      if knap_cost_units it ≤ w ∧ (knap_dp m earlier (w - knap_cost_units it)).2 < m ∧
          (knap_dp m earlier w).1 < (knap_dp m earlier (w - knap_cost_units it)).1 + it.score
      then it :: knap_backtrack m earlier (w - knap_cost_units it)
      else knap_backtrack m earlier w := rfl

/-- The DP's stored item count never exceeds `max_items` (the take-branch
requires `prev_count < max_items`). -/
theorem knap_dp_count_le (m : ℕ) :
    ∀ (l : List Candidate) (w : ℕ), (knap_dp m l w).2 ≤ m := by
  intro l
  induction l with
  | nil => intro w; exact Nat.zero_le m
  | cons it earlier ih =>
    intro w
    rw [knap_dp_cons]
    by_cases h : knap_cost_units it ≤ w ∧
        (knap_dp m earlier (w - knap_cost_units it)).2 < m ∧
        (knap_dp m earlier w).1 < (knap_dp m earlier (w - knap_cost_units it)).1 + it.score
    · rw [if_pos h]
      exact Nat.succ_le_of_lt h.2.1
    · rw [if_neg h]
      exact ih w

/-- Backtracking recovers exactly as many items as the DP cell counted. -/
theorem knap_backtrack_length (m : ℕ) :
    ∀ (l : List Candidate) (w : ℕ),
      (knap_backtrack m l w).length = (knap_dp m l w).2 := by
  intro l
  induction l with
  | nil => intro w; rfl
  | cons it earlier ih =>
    intro w
    rw [knap_backtrack_cons, knap_dp_cons]
    by_cases h : knap_cost_units it ≤ w ∧
        (knap_dp m earlier (w - knap_cost_units it)).2 < m ∧
        (knap_dp m earlier w).1 < (knap_dp m earlier (w - knap_cost_units it)).1 + it.score
    · rw [if_pos h, if_pos h]
      simp [ih]
    · rw [if_neg h, if_neg h]
      exact ih w

/-- Claim C7 (counterexample): with `max_count = 2` and an ample budget the
knapsack path returns both candidates — `max_count` of them, not
`max_count − 1`: no slot is reserved. -/
theorem claim_C7_counterexample :
    knapsack_select ccands 40 2 = ["B", "A"] ∧
    ¬ ((knapsack_select ccands 40 2).length ≤ 2 - 1) := by
  have hA : knap_cost_units ⟨"A", 1, 19⟩ = 1 := by
    unfold knap_cost_units pyInt
    rw [if_neg (by norm_num : ¬ ((19 : ℚ) / 10 < 0))]
    norm_num
  have hB : knap_cost_units ⟨"B", 1, 19⟩ = 1 := by
    unfold knap_cost_units pyInt
    rw [if_neg (by norm_num : ¬ ((19 : ℚ) / 10 < 0))]
    norm_num
  have hW : pyInt ((40 : ℚ) / 10) = 4 := by
    unfold pyInt
    rw [if_neg (by norm_num : ¬ ((40 : ℚ) / 10 < 0))]
    norm_num
  have hsel : knapsack_select ccands 40 2 = ["B", "A"] := by
    unfold knapsack_select knapsack_select_core
    rw [hW]
    rw [if_neg (by norm_num : ¬ ((4 : ℤ) ≤ 0))]
    simp [ccands, knap_dp, knap_backtrack, hA, hB]
  refine ⟨hsel, ?_⟩
  rw [hsel]
  decide

/-- Claim C7 (amended): the knapsack path selects at most `max_count`
destinations — the DP enforces `prev_count < max_items` before taking an
item, so the cap is `max_count`, with no slot reserved. -/
theorem claim_C7_amended (candidates : List Candidate) (budget : ℚ)
    (max_items : ℕ) :
    (knapsack_select candidates budget max_items).length ≤ max_items := by
  unfold knapsack_select knapsack_select_core
  by_cases h : pyInt (budget / 10) ≤ 0
  · rw [if_pos h]
    simp
  · rw [if_neg h]
    rw [List.length_map, knap_backtrack_length]
    exact knap_dp_count_le max_items _ _

/- ── Claim C2: knapsack DP properties ──────────────────────────────── -/

/-- The DP's stored item count never exceeds the number of processed
items. -/
theorem knap_dp_count_le_length (m : ℕ) :
    ∀ (l : List Candidate) (w : ℕ), (knap_dp m l w).2 ≤ l.length := by
  intro l
  induction l with
  | nil => intro w; exact Nat.le_refl 0
  | cons it earlier ih =>
    intro w
    rw [knap_dp_cons]
    by_cases h : knap_cost_units it ≤ w ∧
        (knap_dp m earlier (w - knap_cost_units it)).2 < m ∧
        (knap_dp m earlier w).1 < (knap_dp m earlier (w - knap_cost_units it)).1 + it.score
    · rw [if_pos h]
      exact Nat.succ_le_succ (ih _)
    · rw [if_neg h]
      exact le_trans (ih w) (Nat.le_succ _)

/-- Processing one more item never lowers the DP score. -/
theorem knap_dp_skip_le (m : ℕ) (it : Candidate) (earlier : List Candidate) (w : ℕ) :
    (knap_dp m earlier w).1 ≤ (knap_dp m (it :: earlier) w).1 := by
  rw [knap_dp_cons]
  by_cases h : knap_cost_units it ≤ w ∧
      (knap_dp m earlier (w - knap_cost_units it)).2 < m ∧
      (knap_dp m earlier w).1 < (knap_dp m earlier (w - knap_cost_units it)).1 + it.score
  · rw [if_pos h]
    exact le_of_lt h.2.2
  · rw [if_neg h]

/-- When the item fits and the count cap is slack, the DP cell dominates
taking the item. -/
theorem knap_dp_take_le (m : ℕ) (it : Candidate) (earlier : List Candidate) (w : ℕ)
    (hcu : knap_cost_units it ≤ w)
    (hcnt : (knap_dp m earlier (w - knap_cost_units it)).2 < m) :
    (knap_dp m earlier (w - knap_cost_units it)).1 + it.score ≤
      (knap_dp m (it :: earlier) w).1 := by
  rw [knap_dp_cons]
  by_cases hlt : (knap_dp m earlier w).1 <
      (knap_dp m earlier (w - knap_cost_units it)).1 + it.score
  · rw [if_pos ⟨hcu, hcnt, hlt⟩]
  · have : ¬ (knap_cost_units it ≤ w ∧
        (knap_dp m earlier (w - knap_cost_units it)).2 < m ∧
        (knap_dp m earlier w).1 <
          (knap_dp m earlier (w - knap_cost_units it)).1 + it.score) := by
      intro hc
      exact hlt hc.2.2
    rw [if_neg this]
    exact not_lt.mp hlt

/-- The backtracked selection is a sublist of the items, fits the unit
budget, and scores exactly the DP cell value. -/
theorem knap_backtrack_props (m : ℕ) :
    ∀ (l : List Candidate) (w : ℕ),
      (knap_backtrack m l w).Sublist l ∧
      ((knap_backtrack m l w).map knap_cost_units).sum ≤ w ∧
      ((knap_backtrack m l w).map (fun c => c.score)).sum = (knap_dp m l w).1 := by
  intro l
  induction l with
  | nil =>
    intro w
    exact ⟨List.Sublist.slnil, Nat.zero_le w, rfl⟩
  | cons it earlier ih =>
    intro w
    rw [knap_backtrack_cons, knap_dp_cons]
    by_cases h : knap_cost_units it ≤ w ∧
        (knap_dp m earlier (w - knap_cost_units it)).2 < m ∧
        (knap_dp m earlier w).1 < (knap_dp m earlier (w - knap_cost_units it)).1 + it.score
    · rw [if_pos h, if_pos h]
      obtain ⟨hsub, hcost, hscore⟩ := ih (w - knap_cost_units it)
      refine ⟨List.Sublist.cons₂ it hsub, ?_, ?_⟩
      · simp only [List.map_cons, List.sum_cons]
        omega
      · simp only [List.map_cons, List.sum_cons, hscore]
        omega
    · rw [if_neg h, if_neg h]
      obtain ⟨hsub, hcost, hscore⟩ := ih w
      exact ⟨List.Sublist.cons _ hsub, hcost, hscore⟩

/-- The DP is exact when the cardinality cap is slack
(`max_items ≥` processed-item count): its cell value dominates every
unit-feasible sublist of the processed items. -/
theorem knap_dp_optimal (m : ℕ) :
    ∀ (l : List Candidate), l.length ≤ m →
      ∀ (w : ℕ) (T : List Candidate), T.Sublist l →
        (T.map knap_cost_units).sum ≤ w →
        (T.map (fun c => c.score)).sum ≤ (knap_dp m l w).1 := by
  intro l
  induction l with
  | nil =>
    intro _ w T hT _
    rw [List.sublist_nil.mp hT]
    exact Nat.zero_le _
  | cons it earlier ih =>
    intro hlen w T hT hc
    rcases List.sublist_cons_iff.mp hT with hTe | ⟨r, rfl, hre⟩
    · exact le_trans (ih (Nat.le_of_succ_le hlen) w T hTe hc)
        (knap_dp_skip_le m it earlier w)
    · simp only [List.map_cons, List.sum_cons] at hc ⊢
      have hcu : knap_cost_units it ≤ w := le_trans (Nat.le_add_right _ _) hc
      have hrc : (r.map knap_cost_units).sum ≤ w - knap_cost_units it := by omega
      have hscore := ih (Nat.le_of_succ_le hlen) (w - knap_cost_units it) r hre hrc
      have hcnt : (knap_dp m earlier (w - knap_cost_units it)).2 < m :=
        lt_of_le_of_lt (knap_dp_count_le_length m earlier _)
          (lt_of_lt_of_le (Nat.lt_succ_self _) hlen)
      have htake := knap_dp_take_le m it earlier w hcu hcnt
      omega

/-- A discretized item weight is at most a tenth of its cost. -/
theorem knap_cost_units_le_div (c : Candidate) (hc : 0 ≤ c.min_cost) :
    ((knap_cost_units c : ℕ) : ℚ) ≤ c.min_cost / 10 := by
  unfold knap_cost_units pyInt
  have hq : (0 : ℚ) ≤ c.min_cost / 10 := div_nonneg hc (by norm_num)
  rw [if_neg (not_lt.mpr hq)]
  have h0 : (0 : ℤ) ≤ ⌊c.min_cost / 10⌋ := Int.le_floor.mpr (by exact_mod_cast hq)
  have hcast : ((⌊c.min_cost / 10⌋.toNat : ℕ) : ℚ) = ((⌊c.min_cost / 10⌋ : ℤ) : ℚ) := by
    exact_mod_cast congrArg (fun z : ℤ => (z : ℚ)) (Int.toNat_of_nonneg h0)
  rw [hcast]
  exact Int.floor_le _

/-- Summed discretized weights are at most a tenth of the summed costs. -/
theorem cost_units_sum_le_div (T : List Candidate) (hpos : ∀ c ∈ T, 0 ≤ c.min_cost) :
    (((T.map knap_cost_units).sum : ℕ) : ℚ) ≤ (T.map (fun c => c.min_cost)).sum / 10 := by
  induction T with
  | nil => simp
  | cons c T ih =>
    have hc := hpos c (List.mem_cons_self c T)
    have hih := ih (fun x hx => hpos x (List.mem_cons_of_mem c hx))
    simp only [List.map_cons, List.sum_cons]
    push_cast
    have hcu := knap_cost_units_le_div c hc
    rw [add_div]
    push_cast at hih
    linarith

/-- Claim C2 (amended): when the cardinality cap is slack
(`max_count ≥` candidate count) and the working budget is at least one
granularity unit, the knapsack path is optimal — no budget-feasible subset
of size ≤ `max_count` beats its total score.  (With a binding cap the DP
can be suboptimal, because each cell keeps a single `(score, count)`
state; see the counterexample.) -/
theorem claim_C2_amended (candidates : List Candidate) (budget : ℚ) (max_items : ℕ)
    (hlen : candidates.length ≤ 50)
    (hcap : candidates.length ≤ max_items)
    (hpos : ∀ c ∈ candidates, 0 ≤ c.min_cost)
    (hbud : 10 ≤ budget)
    (T : List Candidate) (hT : T.Sublist candidates)
    (hfeas : (T.map (fun c => c.min_cost)).sum ≤ budget)
    (hcard : T.length ≤ max_items) :
    (T.map (fun c => c.score)).sum ≤
      ((knapsack_select_core candidates budget max_items).map (fun c => c.score)).sum := by
  have hq : (0 : ℚ) ≤ budget / 10 := by linarith
  have hpy : pyInt (budget / 10) = ⌊budget / 10⌋ := by
    unfold pyInt; rw [if_neg (not_lt.mpr hq)]
  have hW1 : (1 : ℤ) ≤ ⌊budget / 10⌋ := by
    refine Int.le_floor.mpr ?_
    push_cast
    linarith
  unfold knapsack_select_core
  rw [hpy, if_neg (by omega : ¬ ⌊budget / 10⌋ ≤ 0)]
  have hTpos : ∀ c ∈ T, 0 ≤ c.min_cost := fun c hc => hpos c (hT.subset hc)
  have h1 : (((T.map knap_cost_units).sum : ℕ) : ℚ) ≤ budget / 10 := by
    refine le_trans (cost_units_sum_le_div T hTpos) ?_
    gcongr
  have h2 : (((T.map knap_cost_units).sum : ℕ) : ℤ) ≤ ⌊budget / 10⌋ := by
    rw [Int.le_floor, Int.cast_natCast]
    exact h1
  have h3 : (T.map knap_cost_units).sum ≤ ⌊budget / 10⌋.toNat := by omega
  have hTr : T.reverse.Sublist candidates.reverse := hT.reverse
  have hlenr : candidates.reverse.length ≤ max_items := by simpa using hcap
  have hcostr : (T.reverse.map knap_cost_units).sum ≤ ⌊budget / 10⌋.toNat := by
    rw [List.map_reverse, List.sum_reverse]
    exact h3
  have hopt := knap_dp_optimal max_items candidates.reverse hlenr ⌊budget / 10⌋.toNat
    T.reverse hTr hcostr
  have hscore_rev : (T.reverse.map (fun c => c.score)).sum = (T.map (fun c => c.score)).sum := by
    rw [List.map_reverse, List.sum_reverse]
  rw [hscore_rev] at hopt
  rw [(knap_backtrack_props max_items candidates.reverse ⌊budget / 10⌋.toNat).2.2]
  exact hopt

/-- Claim C2 (counterexample): on `kcands` with working budget 30 and
`max_count = 2`, the subset {A, E} is budget-feasible (cost 30 ≤ 30), has
2 ≤ 2 elements and scores 9, yet the knapsack path returns a subset of
total score 7 — the claimed optimality fails when the cardinality cap
binds. -/
theorem claim_C2_counterexample :
    ([⟨"A", 4, 20⟩, ⟨"E", 5, 10⟩] : List Candidate).Sublist kcands ∧
    (([⟨"A", 4, 20⟩, ⟨"E", 5, 10⟩] : List Candidate).map (fun c => c.min_cost)).sum ≤ 30 ∧
    ([⟨"A", 4, 20⟩, ⟨"E", 5, 10⟩] : List Candidate).length ≤ 2 ∧
    ((knapsack_select_core kcands 30 2).map (fun c => c.score)).sum <
      (([⟨"A", 4, 20⟩, ⟨"E", 5, 10⟩] : List Candidate).map (fun c => c.score)).sum := by
  have hsel : ((knapsack_select_core kcands 30 2).map (fun c => c.score)).sum = 7 := by
    have hA : knap_cost_units ⟨"A", 4, 20⟩ = 2 := by
      unfold knap_cost_units pyInt
      rw [if_neg (by norm_num : ¬ ((20 : ℚ) / 10 < 0)),
        show ⌊(20 : ℚ) / 10⌋ = 2 from by norm_num]
      rfl
    have hB : knap_cost_units ⟨"B", 3, 10⟩ = 1 := by
      unfold knap_cost_units pyInt
      rw [if_neg (by norm_num : ¬ ((10 : ℚ) / 10 < 0))]
      norm_num
    have hC : knap_cost_units ⟨"C", 3, 10⟩ = 1 := by
      unfold knap_cost_units pyInt
      rw [if_neg (by norm_num : ¬ ((10 : ℚ) / 10 < 0))]
      norm_num
    have hE : knap_cost_units ⟨"E", 5, 10⟩ = 1 := by
      unfold knap_cost_units pyInt
      rw [if_neg (by norm_num : ¬ ((10 : ℚ) / 10 < 0))]
      norm_num
    have hW : pyInt ((30 : ℚ) / 10) = 3 := by
      unfold pyInt
      rw [if_neg (by norm_num : ¬ ((30 : ℚ) / 10 < 0))]
      norm_num
    unfold knapsack_select_core
    rw [hW]
    rw [if_neg (by norm_num : ¬ ((3 : ℤ) ≤ 0))]
    simp [kcands, knap_dp, knap_backtrack, hA, hB, hC, hE]
  refine ⟨by decide, ?_, by decide, ?_⟩
  · simp
    norm_num
  · rw [hsel]
    simp

/-- Claim C2 witness: the amended optimality applied to a one-candidate
instance with slack cap, showing the full-selection subset is dominated by
the knapsack output. -/
theorem claim_C2_witness :
    (([⟨"A", 3, 10⟩] : List Candidate).length ≤ 50) ∧
    (([⟨"A", 3, 10⟩] : List Candidate).length ≤ 5) ∧
    (∀ c ∈ ([⟨"A", 3, 10⟩] : List Candidate), 0 ≤ c.min_cost) ∧
    ((10 : ℚ) ≤ 20) ∧
    ([⟨"A", 3, 10⟩] : List Candidate).Sublist [⟨"A", 3, 10⟩] ∧
    (([⟨"A", 3, 10⟩] : List Candidate).map (fun c => c.min_cost)).sum ≤ 20 ∧
    ([⟨"A", 3, 10⟩] : List Candidate).length ≤ 5 ∧
    (([⟨"A", 3, 10⟩] : List Candidate).map (fun c => c.score)).sum ≤
      ((knapsack_select_core [⟨"A", 3, 10⟩] 20 5).map (fun c => c.score)).sum := by
  have hpos : ∀ c ∈ ([⟨"A", 3, 10⟩] : List Candidate), 0 ≤ c.min_cost := by
    intro c hc
    fin_cases hc
    norm_num
  have hfeas : (([⟨"A", 3, 10⟩] : List Candidate).map (fun c => c.min_cost)).sum ≤ 20 := by
    simp
    norm_num
  exact ⟨by decide, by decide, hpos, by norm_num, List.Sublist.refl _, hfeas, by decide,
    claim_C2_amended [⟨"A", 3, 10⟩] 20 5 (by decide) (by decide) hpos (by norm_num)
      [⟨"A", 3, 10⟩] (List.Sublist.refl _) hfeas (by decide)⟩

/- ── Claim C6: selection budget invariant ──────────────────────────── -/

/-- Invariant of the greedy accumulation: the running total equals the cost
of the accumulated selection and never exceeds the budget. -/
theorem greedy_foldl_inv (budget : ℚ) (max_items : ℕ) :
    ∀ (l : List Candidate) (acc : List Candidate × ℚ),
      (acc.1.map (fun c => c.min_cost)).sum = acc.2 → acc.2 ≤ budget →
      ((l.foldl (greedy_step budget max_items) acc).1.map (fun c => c.min_cost)).sum =
        (l.foldl (greedy_step budget max_items) acc).2 ∧
      (l.foldl (greedy_step budget max_items) acc).2 ≤ budget := by
  intro l
  induction l with
  | nil => intro acc h1 h2; exact ⟨h1, h2⟩
  | cons c l ih =>
    intro acc h1 h2
    simp only [List.foldl_cons]
    by_cases hcap : max_items ≤ acc.1.length
    · have hstep : greedy_step budget max_items acc c = acc := by
        unfold greedy_step; rw [if_pos hcap]
      rw [hstep]
      exact ih acc h1 h2
    · by_cases hb : acc.2 + c.min_cost ≤ budget
      · have hstep : greedy_step budget max_items acc c =
            (acc.1 ++ [c], acc.2 + c.min_cost) := by
          unfold greedy_step; rw [if_neg hcap, if_pos hb]
        rw [hstep]
        refine ih _ ?_ hb
        simp [h1]
      · have hstep : greedy_step budget max_items acc c = acc := by
          unfold greedy_step; rw [if_neg hcap, if_neg hb]
        rw [hstep]
        exact ih acc h1 h2

/-- Claim C6 (amended): the greedy path's selection satisfies the claimed
invariant — total minimum cost ≤ working budget — but the knapsack path
guarantees it only in discretized units: the sum of `⌊min_cost/10⌋`
weights stays within `⌊working_budget/10⌋`, which permits the true total
to exceed the working budget (see the counterexample). -/
theorem claim_C6_amended (candidates : List Candidate) (budget : ℚ)
    (max_items : ℕ) (h0 : 0 ≤ budget) :
    ((greedy_select_core candidates budget max_items).1.map (fun c => c.min_cost)).sum ≤
      budget ∧
    ((knapsack_select_core candidates budget max_items).map knap_cost_units).sum ≤
      (pyInt (budget / 10)).toNat := by
  constructor
  · unfold greedy_select_core
    obtain ⟨he, hle⟩ := greedy_foldl_inv budget max_items
      (candidates.mergeSort greedy_le) ([], 0) (by simp) h0
    rw [he]
    exact hle
  · unfold knapsack_select_core
    by_cases h : pyInt (budget / 10) ≤ 0
    · rw [if_pos h]
      simp
    · rw [if_neg h]
      exact (knap_backtrack_props max_items candidates.reverse _).2.1

/-- Claim C6 (counterexample): on a catalog of two cost-19 destinations
with budget 50, the working budget is 30, the knapsack path selects both
destinations, and their true minimum cost 38 exceeds the working budget —
the floor-discretized weights (1 + 1 ≤ 3) hide 9 dollars of each cost. -/
theorem claim_C6_counterexample :
    select_countries scatalog ["x"] 2 "H" 50 = ["B", "A"] ∧
    working_budget scatalog 50 = 30 ∧
    data_minimum_cost (scat "B") + data_minimum_cost (scat "A") = 38 ∧
    ¬ ((38 : ℚ) ≤ 30) := by
  have eA : scat "A" = ⟨15, 2, ["x"]⟩ := rfl
  have eB : scat "B" = ⟨15, 2, ["x"]⟩ := rfl
  have eH : scat "H" = ⟨0, 0, []⟩ := rfl
  have hwb : working_budget scatalog 50 = 30 := by
    unfold working_budget max_travel_cost scatalog
    rw [eA, eB, eH]
    simp only [List.foldl_cons, List.foldl_nil]
    rw [max_eq_right (by norm_num : (0 : ℚ) ≤ 15), max_eq_right (le_refl (15 : ℚ))]
    norm_num [BUDGET_SAFETY_MARGIN]
  refine ⟨?_, hwb, ?_, by norm_num⟩
  · have hbc : build_candidates scatalog ["x"] "H" = [⟨"A", 1, 19⟩, ⟨"B", 1, 19⟩] := by
      simp [build_candidates, scatalog, eA, eB, eH, data_interest_score, data_minimum_cost,
        MIN_DAYS_PER_COUNTRY]
      norm_num
    unfold select_countries
    rw [hbc, hwb]
    rw [if_neg (by simp : ¬ ([⟨"A", 1, 19⟩, ⟨"B", 1, 19⟩] : List Candidate) = [])]
    rw [if_neg (by norm_num : ¬ ((30 : ℚ) ≤ 0))]
    rw [if_pos (by norm_num : ([⟨"A", 1, 19⟩, ⟨"B", 1, 19⟩] : List Candidate).length ≤ 50)]
    have hA : knap_cost_units ⟨"A", 1, 19⟩ = 1 := by
      unfold knap_cost_units pyInt
      rw [if_neg (by norm_num : ¬ ((19 : ℚ) / 10 < 0))]
      norm_num
    have hB : knap_cost_units ⟨"B", 1, 19⟩ = 1 := by
      unfold knap_cost_units pyInt
      rw [if_neg (by norm_num : ¬ ((19 : ℚ) / 10 < 0))]
      norm_num
    have hW : pyInt ((30 : ℚ) / 10) = 3 := by
      unfold pyInt
      rw [if_neg (by norm_num : ¬ ((30 : ℚ) / 10 < 0))]
      norm_num
    unfold knapsack_select knapsack_select_core
    rw [hW]
    rw [if_neg (by norm_num : ¬ ((3 : ℤ) ≤ 0))]
    simp [knap_dp, knap_backtrack, hA, hB]
  · rw [eA, eB]
    norm_num [data_minimum_cost, MIN_DAYS_PER_COUNTRY]

/-- Claim C6 witness: the amended budget invariant applied with a concrete
nonnegative budget. -/
theorem claim_C6_witness :
    ((0 : ℚ) ≤ 20) ∧
    ((greedy_select_core [⟨"A", 1, 19⟩] 20 3).1.map (fun c => c.min_cost)).sum ≤ 20 ∧
    ((knapsack_select_core [⟨"A", 1, 19⟩] 20 3).map knap_cost_units).sum ≤
      (pyInt ((20 : ℚ) / 10)).toNat :=
  ⟨by norm_num,
   (claim_C6_amended [⟨"A", 1, 19⟩] 20 3 (by norm_num)).1,
   (claim_C6_amended [⟨"A", 1, 19⟩] 20 3 (by norm_num)).2⟩

/- ── Claim C1: day-allocation sums ─────────────────────────────────── -/

theorem dict_set_absent (m : List (String × ℕ)) (k : String) (v : ℕ)
    (h : ∀ p ∈ m, p.1 ≠ k) : dict_set m k v = m ++ [(k, v)] := by
  have hany : ¬ (m.any (fun p => p.1 == k) = true) := by
    intro hc
    simp only [List.any_eq_true, beq_iff_eq] at hc
    obtain ⟨p, hp, hpk⟩ := hc
    exact h p hp hpk
  unfold dict_set
  rw [if_neg hany]

theorem foldl_dict_set_append (v : ℕ) :
    ∀ (l : List String) (m : List (String × ℕ)), l.Nodup →
      (∀ c ∈ l, ∀ p ∈ m, p.1 ≠ c) →
      l.foldl (fun m c => dict_set m c v) m = m ++ l.map (fun c => (c, v)) := by
  intro l
  induction l with
  | nil => intro m _ _; simp
  | cons c l ih =>
    intro m hnd hdisj
    simp only [List.foldl_cons]
    have hset : dict_set m c v = m ++ [(c, v)] :=
      dict_set_absent m c v (fun p hp => hdisj c (List.mem_cons_self c l) p hp)
    rw [hset]
    rw [ih (m ++ [(c, v)]) (List.Nodup.of_cons hnd) ?_]
    · simp
    · intro c' hc' p hp
      rcases List.mem_append.mp hp with hpm | hpc
      · exact hdisj c' (List.mem_cons_of_mem c hc') p hpm
      · have : p = (c, v) := by simpa using hpc
        rw [this]
        intro hcc
        simp only at hcc
        rw [hcc] at hnd
        exact (List.nodup_cons.mp hnd).1 hc'

theorem dict_add_keys (m : List (String × ℕ)) (k : String) (v : ℕ) :
    (dict_add m k v).map (fun p => p.1) = m.map (fun p => p.1) := by
  unfold dict_add
  rw [List.map_map]
  refine List.map_congr_left ?_
  intro p _
  by_cases hp : p.1 = k
  · simp [hp]
  · simp [hp]

theorem vals_sum_dict_add (k : String) (v : ℕ) :
    ∀ m : List (String × ℕ),
      vals_sum (dict_add m k v) =
        vals_sum m + v * ((m.map (fun p => p.1)).count k) := by
  intro m
  induction m with
  | nil => rfl
  | cons p m ih =>
    unfold dict_add vals_sum at ih ⊢
    simp only [List.map_cons, List.sum_cons, List.count_cons]
    by_cases hp : p.1 = k
    · rw [if_pos hp]
      simp only [List.sum_cons]
      rw [ih, if_pos (by simp [hp] : (p.1 == k) = true)]
      ring
    · rw [if_neg hp]
      rw [ih, if_neg (by simp [hp] : ¬ (p.1 == k) = true)]
      ring

theorem foldl_dict_add_sum (f : String → ℕ) :
    ∀ (l : List String) (m : List (String × ℕ)),
      (∀ c ∈ l, (m.map (fun p => p.1)).count c = 1) →
      vals_sum (l.foldl (fun m c => dict_add m c (f c)) m) =
        vals_sum m + (l.map f).sum := by
  intro l
  induction l with
  | nil => intro m _; simp
  | cons c l ih =>
    intro m hcnt
    simp only [List.foldl_cons, List.map_cons, List.sum_cons]
    rw [ih (dict_add m c (f c)) ?_]
    · rw [vals_sum_dict_add, hcnt c (List.mem_cons_self c l)]
      ring
    · intro c' hc'
      rw [dict_add_keys]
      exact hcnt c' (List.mem_cons_of_mem c hc')

theorem dict_add_lb (m : List (String × ℕ)) (k : String) (v n : ℕ)
    (h : ∀ p ∈ m, n ≤ p.2) : ∀ p ∈ dict_add m k v, n ≤ p.2 := by
  intro p hp
  unfold dict_add at hp
  obtain ⟨q, hq, rfl⟩ := List.mem_map.mp hp
  by_cases hqk : q.1 = k
  · rw [if_pos hqk]
    exact le_trans (h q hq) (Nat.le_add_right _ _)
  · rw [if_neg hqk]
    exact h q hq

theorem foldl_dict_add_lb (f : String → ℕ) (n : ℕ) :
    ∀ (l : List String) (m : List (String × ℕ)),
      (∀ p ∈ m, n ≤ p.2) →
      ∀ p ∈ l.foldl (fun m c => dict_add m c (f c)) m, n ≤ p.2 := by
  intro l
  induction l with
  | nil => intro m h; exact h
  | cons c l ih =>
    intro m h
    simp only [List.foldl_cons]
    exact ih (dict_add m c (f c)) (dict_add_lb m c (f c) n h)

theorem leftover_pass_keys (c : String) :
    ∀ (l : List String) (left : ℤ) (m : List (String × ℕ)),
      ((leftover_pass l left m).map (fun p => p.1)) = m.map (fun p => p.1) := by
  intro l
  induction l with
  | nil => intro left m; rfl
  | cons x l ih =>
    intro left m
    unfold leftover_pass
    by_cases h : (0 : ℤ) < left
    · rw [if_pos h, ih, dict_add_keys]
    · rw [if_neg h]

theorem leftover_pass_lb (n : ℕ) :
    ∀ (l : List String) (left : ℤ) (m : List (String × ℕ)),
      (∀ p ∈ m, n ≤ p.2) →
      ∀ p ∈ leftover_pass l left m, n ≤ p.2 := by
  intro l
  induction l with
  | nil => intro left m h; exact h
  | cons x l ih =>
    intro left m h
    unfold leftover_pass
    by_cases hl : (0 : ℤ) < left
    · rw [if_pos hl]
      exact ih (left - 1) (dict_add m x 1) (dict_add_lb m x 1 n h)
    · rw [if_neg hl]
      exact h

theorem leftover_pass_sum :
    ∀ (l : List String) (left : ℤ) (m : List (String × ℕ)),
      0 ≤ left → left ≤ l.length →
      (∀ c ∈ l, (m.map (fun p => p.1)).count c = 1) →
      (vals_sum (leftover_pass l left m) : ℤ) = vals_sum m + left := by
  intro l
  induction l with
  | nil =>
    intro left m h0 hlen _
    simp only [List.length_nil, Nat.cast_zero] at hlen
    unfold leftover_pass
    omega
  | cons x l ih =>
    intro left m h0 hlen hcnt
    unfold leftover_pass
    by_cases hl : (0 : ℤ) < left
    · rw [if_pos hl]
      have hrec := ih (left - 1) (dict_add m x 1) (by omega) ?_ ?_
      · rw [hrec, vals_sum_dict_add, hcnt x (List.mem_cons_self x l)]
        push_cast
        ring
      · simp only [List.length_cons] at hlen
        push_cast at hlen ⊢
        omega
      · intro c hc
        rw [dict_add_keys]
        exact hcnt c (List.mem_cons_of_mem x hc)
    · rw [if_neg hl]
      omega

theorem sum_map_sub_one (f : String → ℚ) :
    ∀ l : List String,
      (l.map (fun c => f c - 1)).sum = (l.map f).sum - l.length := by
  intro l
  induction l with
  | nil => simp
  | cons a l ih =>
    simp only [List.map_cons, List.sum_cons, List.length_cons, ih]
    push_cast
    ring

theorem floor_sum_le (l : List String) (sc : String → ℕ) (r : ℤ)
    (hr : 0 < r) (hS : 0 < (l.map sc).sum) :
    ((l.map (fun c => ⌊((r : ℚ) * (sc c : ℚ)) / ((l.map sc).sum : ℚ)⌋)).sum ≤ r ∧
      r - l.length ≤ (l.map (fun c => ⌊((r : ℚ) * (sc c : ℚ)) / ((l.map sc).sum : ℚ)⌋)).sum) := by
  have hSq : (0 : ℚ) < ((l.map sc).sum : ℚ) := by exact_mod_cast hS
  have hxsum : (l.map (fun c => ((r : ℚ) * (sc c : ℚ)) / ((l.map sc).sum : ℚ))).sum = r := by
    have hpt : ∀ c, ((r : ℚ) * (sc c : ℚ)) / ((l.map sc).sum : ℚ) =
        ((r : ℚ) / ((l.map sc).sum : ℚ)) * (sc c : ℚ) := by
      intro c
      ring
    rw [List.map_congr_left (fun c _ => hpt c), List.sum_map_mul_left]
    have hcast : (l.map (fun c => (sc c : ℚ))).sum = ((l.map sc).sum : ℚ) := by
      rw [Nat.cast_list_sum, List.map_map]
      rfl
    rw [hcast]
    exact div_mul_cancel₀ _ (ne_of_gt hSq)
  constructor
  · have hle : ((l.map (fun c => ⌊((r : ℚ) * (sc c : ℚ)) / ((l.map sc).sum : ℚ)⌋)).sum : ℚ) ≤
        (l.map (fun c => ((r : ℚ) * (sc c : ℚ)) / ((l.map sc).sum : ℚ))).sum := by
      rw [Int.cast_list_sum, List.map_map]
      exact List.sum_le_sum (fun c _ => Int.floor_le _)
    rw [hxsum] at hle
    exact_mod_cast hle
  · have hge : (l.map (fun c => ((r : ℚ) * (sc c : ℚ)) / ((l.map sc).sum : ℚ) - 1)).sum ≤
        ((l.map (fun c => ⌊((r : ℚ) * (sc c : ℚ)) / ((l.map sc).sum : ℚ)⌋)).sum : ℚ) := by
      rw [Int.cast_list_sum, List.map_map]
      refine List.sum_le_sum (fun c _ => ?_)
      have hfl := Int.lt_floor_add_one (((r : ℚ) * (sc c : ℚ)) / ((l.map sc).sum : ℚ))
      simp only [Function.comp]
      linarith
    rw [sum_map_sub_one, hxsum] at hge
    exact_mod_cast hge


theorem distribute_days_zero (data : String → CountryData) (total : ℕ)
    (route : List String) (ints : List String)
    (hne : ¬ (route.drop 1).dropLast = [])
    (hS : (((route.drop 1).dropLast).map (fun c => interest_score data c ints)).sum = 0) :
    distribute_days data total route ints =
      ((route.drop 1).dropLast).map
        (fun c => (c, max (total / ((route.drop 1).dropLast).length) MIN_DAYS_PER_COUNTRY)) := by
  unfold distribute_days
  rw [if_neg hne, if_pos hS]

theorem distribute_days_pos (data : String → CountryData) (total : ℕ)
    (route : List String) (ints : List String)
    (hne : ¬ (route.drop 1).dropLast = [])
    (hS : ¬ (((route.drop 1).dropLast).map (fun c => interest_score data c ints)).sum = 0) :
    distribute_days data total route ints =
      leftover_pass
        (dd_sorted (fun c => interest_score data c ints)
          (dd_additional (fun c => interest_score data c ints)
            (((route.drop 1).dropLast).map (fun c => interest_score data c ints)).sum
            ((total : ℤ) - (MIN_DAYS_PER_COUNTRY : ℤ) * ((route.drop 1).dropLast).length)
            ((route.drop 1).dropLast) (dd_min_assign ((route.drop 1).dropLast)))
          ((route.drop 1).dropLast))
        ((total : ℤ) -
          (vals_sum (dd_additional (fun c => interest_score data c ints)
            (((route.drop 1).dropLast).map (fun c => interest_score data c ints)).sum
            ((total : ℤ) - (MIN_DAYS_PER_COUNTRY : ℤ) * ((route.drop 1).dropLast).length)
            ((route.drop 1).dropLast) (dd_min_assign ((route.drop 1).dropLast))) : ℤ))
        (dd_additional (fun c => interest_score data c ints)
          (((route.drop 1).dropLast).map (fun c => interest_score data c ints)).sum
          ((total : ℤ) - (MIN_DAYS_PER_COUNTRY : ℤ) * ((route.drop 1).dropLast).length)
          ((route.drop 1).dropLast) (dd_min_assign ((route.drop 1).dropLast))) := by
  unfold distribute_days
  rw [if_neg hne, if_neg hS]

theorem leftover_pass_nonpos (l : List String) (left : ℤ) (m : List (String × ℕ))
    (h : ¬ (0 : ℤ) < left) : leftover_pass l left m = m := by
  cases l with
  | nil => rfl
  | cons x l => unfold leftover_pass; rw [if_neg h]

theorem dd_min_assign_eq (l : List String) (hnd : l.Nodup) :
    dd_min_assign l = l.map (fun c => (c, MIN_DAYS_PER_COUNTRY)) := by
  unfold dd_min_assign
  rw [foldl_dict_set_append MIN_DAYS_PER_COUNTRY l [] hnd
    (fun c _ p hp => absurd hp (List.not_mem_nil p))]
  rfl

theorem dd_additional_stall (sc : String → ℕ) (S : ℕ) (r : ℤ)
    (h : ¬ (0 < S ∧ 0 < r)) :
    ∀ (l : List String) (m : List (String × ℕ)), dd_additional sc S r l m = m := by
  intro l
  induction l with
  | nil => intro m; rfl
  | cons c l ih =>
    intro m
    unfold dd_additional at ih ⊢
    simp only [List.foldl_cons]
    rw [if_neg h]
    exact ih m

theorem dd_additional_run (sc : String → ℕ) (S : ℕ) (r : ℤ)
    (hS : 0 < S) (hr : 0 < r) :
    ∀ (l : List String) (m : List (String × ℕ)),
      dd_additional sc S r l m =
        l.foldl (fun m c =>
          dict_add m c (pyInt ((r : ℚ) * (sc c : ℚ) / (S : ℚ))).toNat) m := by
  intro l
  induction l with
  | nil => intro m; rfl
  | cons c l ih =>
    intro m
    unfold dd_additional at ih ⊢
    simp only [List.foldl_cons]
    rw [if_pos ⟨hS, hr⟩]
    exact ih _

theorem foldl_dict_add_keys (f : String → ℕ) :
    ∀ (l : List String) (m : List (String × ℕ)),
      ((l.foldl (fun m c => dict_add m c (f c)) m).map (fun p => p.1)) =
        m.map (fun p => p.1) := by
  intro l
  induction l with
  | nil => intro m; rfl
  | cons c l ih =>
    intro m
    simp only [List.foldl_cons]
    rw [ih, dict_add_keys]

theorem vals_sum_map_pair (l : List String) (v : ℕ) :
    vals_sum (l.map (fun c => (c, v))) = l.length * v := by
  induction l with
  | nil => simp [vals_sum]
  | cons c l ih =>
    simp only [List.map_cons, vals_sum, List.sum_cons, List.length_cons] at ih ⊢
    rw [ih]
    ring

theorem keys_map_pair (l : List String) (v : ℕ) :
    ((l.map (fun c => (c, v))).map (fun p => p.1)) = l := by
  induction l with
  | nil => rfl
  | cons c l ih =>
    simp only [List.map_cons, ih]

theorem dd_additional_lb (sc : String → ℕ) (S : ℕ) (r : ℤ) (n : ℕ) :
    ∀ (l : List String) (m : List (String × ℕ)),
      (∀ q ∈ m, n ≤ q.2) → ∀ p ∈ dd_additional sc S r l m, n ≤ p.2 := by
  intro l
  induction l with
  | nil => intro m h; exact h
  | cons c l ih =>
    intro m h
    unfold dd_additional at ih ⊢
    simp only [List.foldl_cons]
    by_cases hc : 0 < S ∧ 0 < r
    · rw [if_pos hc]
      exact ih _ (dict_add_lb m c _ n h)
    · rw [if_neg hc]
      exact ih _ h

theorem dd_pos_sum (l : List String) (sc : String → ℕ) (total : ℕ)
    (hnd : l.Nodup) (hS : 0 < (l.map sc).sum)
    (hr : (0 : ℤ) < (total : ℤ) - (MIN_DAYS_PER_COUNTRY : ℤ) * l.length) :
    vals_sum
      (leftover_pass
        (dd_sorted sc
          (dd_additional sc (l.map sc).sum
            ((total : ℤ) - (MIN_DAYS_PER_COUNTRY : ℤ) * l.length) l (dd_min_assign l)) l)
        ((total : ℤ) -
          (vals_sum (dd_additional sc (l.map sc).sum
            ((total : ℤ) - (MIN_DAYS_PER_COUNTRY : ℤ) * l.length) l (dd_min_assign l)) : ℤ))
        (dd_additional sc (l.map sc).sum
          ((total : ℤ) - (MIN_DAYS_PER_COUNTRY : ℤ) * l.length) l (dd_min_assign l))) =
      total := by
  have hm0 := dd_min_assign_eq l hnd
  have hm0keys : ((dd_min_assign l).map (fun p => p.1)) = l := by
    rw [hm0, keys_map_pair]
  have hm0sum : vals_sum (dd_min_assign l) = MIN_DAYS_PER_COUNTRY * l.length := by
    rw [hm0, vals_sum_map_pair]
    ring
  rw [dd_additional_run _ _ _ hS hr]
  have hcnt0 : ∀ c ∈ l, (((dd_min_assign l).map (fun p => p.1)).count c) = 1 := by
    intro c hc
    rw [hm0keys]
    exact List.count_eq_one_of_mem hnd hc
  have hMsum := foldl_dict_add_sum
    (fun c => (pyInt ((((total : ℤ) - (MIN_DAYS_PER_COUNTRY : ℤ) * l.length : ℤ) : ℚ) *
      (sc c : ℚ) / ((l.map sc).sum : ℚ))).toNat) l (dd_min_assign l) hcnt0
  have hkeysM : (((l.foldl (fun m c => dict_add m c
      ((pyInt ((((total : ℤ) - (MIN_DAYS_PER_COUNTRY : ℤ) * l.length : ℤ) : ℚ) *
        (sc c : ℚ) / ((l.map sc).sum : ℚ))).toNat))
      (dd_min_assign l))).map (fun p => p.1)) = l := by
    rw [foldl_dict_add_keys, hm0keys]
  have hFcast : (((l.map (fun c =>
      (pyInt ((((total : ℤ) - (MIN_DAYS_PER_COUNTRY : ℤ) * l.length : ℤ) : ℚ) *
        (sc c : ℚ) / ((l.map sc).sum : ℚ))).toNat)).sum : ℕ) : ℤ) =
      (l.map (fun c => ⌊(((total : ℤ) - (MIN_DAYS_PER_COUNTRY : ℤ) * l.length : ℤ) : ℚ) *
        (sc c : ℚ) / ((l.map sc).sum : ℚ)⌋)).sum := by
    rw [Nat.cast_list_sum, List.map_map]
    congr 1
    refine List.map_congr_left (fun c _ => ?_)
    have hx : (0 : ℚ) ≤ (((total : ℤ) - (MIN_DAYS_PER_COUNTRY : ℤ) * l.length : ℤ) : ℚ) *
        (sc c : ℚ) / ((l.map sc).sum : ℚ) := by
      apply div_nonneg
      · apply mul_nonneg
        · exact_mod_cast le_of_lt hr
        · exact Nat.cast_nonneg _
      · exact Nat.cast_nonneg _
    have hpy : pyInt ((((total : ℤ) - (MIN_DAYS_PER_COUNTRY : ℤ) * l.length : ℤ) : ℚ) *
        (sc c : ℚ) / ((l.map sc).sum : ℚ)) =
        ⌊(((total : ℤ) - (MIN_DAYS_PER_COUNTRY : ℤ) * l.length : ℤ) : ℚ) *
          (sc c : ℚ) / ((l.map sc).sum : ℚ)⌋ := by
      unfold pyInt
      rw [if_neg (not_lt.mpr hx)]
    simp only [Function.comp]
    rw [hpy, Int.toNat_of_nonneg (Int.le_floor.mpr (by simpa using hx))]
  obtain ⟨hA1, hA2⟩ := floor_sum_le l sc
    ((total : ℤ) - (MIN_DAYS_PER_COUNTRY : ℤ) * l.length) hr hS
  have hMZ : (vals_sum ((l.foldl (fun m c => dict_add m c
      ((pyInt ((((total : ℤ) - (MIN_DAYS_PER_COUNTRY : ℤ) * l.length : ℤ) : ℚ) *
        (sc c : ℚ) / ((l.map sc).sum : ℚ))).toNat))
      (dd_min_assign l))) : ℤ) =
      (MIN_DAYS_PER_COUNTRY : ℤ) * l.length +
        (l.map (fun c => ⌊(((total : ℤ) - (MIN_DAYS_PER_COUNTRY : ℤ) * l.length : ℤ) : ℚ) *
          (sc c : ℚ) / ((l.map sc).sum : ℚ)⌋)).sum := by
    rw [hMsum, hm0sum, Nat.cast_add, hFcast, Nat.cast_mul]
  have hperm : (dd_sorted sc ((l.foldl (fun m c => dict_add m c
      ((pyInt ((((total : ℤ) - (MIN_DAYS_PER_COUNTRY : ℤ) * l.length : ℤ) : ℚ) *
        (sc c : ℚ) / ((l.map sc).sum : ℚ))).toNat))
      (dd_min_assign l))) l).Perm l := List.mergeSort_perm l _
  have hlen : (dd_sorted sc ((l.foldl (fun m c => dict_add m c
      ((pyInt ((((total : ℤ) - (MIN_DAYS_PER_COUNTRY : ℤ) * l.length : ℤ) : ℚ) *
        (sc c : ℚ) / ((l.map sc).sum : ℚ))).toNat))
      (dd_min_assign l))) l).length = l.length := hperm.length_eq
  have hcntM : ∀ c ∈ dd_sorted sc ((l.foldl (fun m c => dict_add m c
      ((pyInt ((((total : ℤ) - (MIN_DAYS_PER_COUNTRY : ℤ) * l.length : ℤ) : ℚ) *
        (sc c : ℚ) / ((l.map sc).sum : ℚ))).toNat))
      (dd_min_assign l))) l,
      ((((l.foldl (fun m c => dict_add m c
        ((pyInt ((((total : ℤ) - (MIN_DAYS_PER_COUNTRY : ℤ) * l.length : ℤ) : ℚ) *
          (sc c : ℚ) / ((l.map sc).sum : ℚ))).toNat))
        (dd_min_assign l))).map (fun p => p.1)).count c) = 1 := by
    intro c hc
    rw [hkeysM]
    exact List.count_eq_one_of_mem hnd (hperm.mem_iff.mp hc)
  have hfinal := leftover_pass_sum _
    ((total : ℤ) - (vals_sum ((l.foldl (fun m c => dict_add m c
      ((pyInt ((((total : ℤ) - (MIN_DAYS_PER_COUNTRY : ℤ) * l.length : ℤ) : ℚ) *
        (sc c : ℚ) / ((l.map sc).sum : ℚ))).toNat))
      (dd_min_assign l))) : ℤ)) _ (by omega) (by rw [hlen]; omega) hcntM
  omega

/-- Claim C1 (amended): for a duplicate-free non-empty interior and
`total_days ≥ interior_count × minimum-stay-days`, every allocated value is
≥ minimum-stay-days; in the proportional branch (total interest score ≠ 0)
the allocation sums to exactly `total_days`, but in the zero-total-score
branch it sums to `interior_count × (total_days // interior_count)`, which
equals `total_days` only when `interior_count` divides it. -/
theorem claim_C1_amended (data : String → CountryData) (total : ℕ)
    (route : List String) (ints : List String)
    (hne : ¬ (route.drop 1).dropLast = [])
    (hnd : ((route.drop 1).dropLast).Nodup)
    (hdays : MIN_DAYS_PER_COUNTRY * ((route.drop 1).dropLast).length ≤ total) :
    (∀ p ∈ distribute_days data total route ints, MIN_DAYS_PER_COUNTRY ≤ p.2) ∧
    ((((route.drop 1).dropLast).map (fun c => interest_score data c ints)).sum ≠ 0 →
      vals_sum (distribute_days data total route ints) = total) ∧
    ((((route.drop 1).dropLast).map (fun c => interest_score data c ints)).sum = 0 →
      vals_sum (distribute_days data total route ints) =
        ((route.drop 1).dropLast).length * (total / ((route.drop 1).dropLast).length)) := by
  have hk : 0 < ((route.drop 1).dropLast).length := List.length_pos.mpr hne
  by_cases hS : (((route.drop 1).dropLast).map (fun c => interest_score data c ints)).sum = 0
  · -- zero-total-score branch: every stop gets max(total // k, 2)
    rw [distribute_days_zero data total route ints hne hS]
    have hdiv : MIN_DAYS_PER_COUNTRY ≤ total / ((route.drop 1).dropLast).length :=
      (Nat.le_div_iff_mul_le hk).mpr hdays
    refine ⟨?_, fun hns => absurd hS hns, fun _ => ?_⟩
    · intro p hp
      obtain ⟨c, hc, rfl⟩ := List.mem_map.mp hp
      exact le_max_right _ _
    · rw [max_eq_left hdiv, vals_sum_map_pair]
  · -- proportional branch
    rw [distribute_days_pos data total route ints hne hS]
    have hSpos : 0 <
        (((route.drop 1).dropLast).map (fun c => interest_score data c ints)).sum :=
      Nat.pos_of_ne_zero hS
    have hm0lb : ∀ p ∈ dd_min_assign ((route.drop 1).dropLast),
        MIN_DAYS_PER_COUNTRY ≤ p.2 := by
      rw [dd_min_assign_eq ((route.drop 1).dropLast) hnd]
      intro p hp
      obtain ⟨c, hc, rfl⟩ := List.mem_map.mp hp
      exact le_refl _
    refine ⟨?_, fun _ => ?_, fun h0 => absurd h0 hS⟩
    · -- every value stays ≥ MIN_DAYS_PER_COUNTRY
      exact leftover_pass_lb MIN_DAYS_PER_COUNTRY _ _ _
        (dd_additional_lb _ _ _ MIN_DAYS_PER_COUNTRY _ _ hm0lb)
    · by_cases hr : (0 : ℤ) <
          (total : ℤ) - (MIN_DAYS_PER_COUNTRY : ℤ) * ((route.drop 1).dropLast).length
      · exact dd_pos_sum ((route.drop 1).dropLast) (fun c => interest_score data c ints)
          total hnd hSpos hr
      · have hstall := dd_additional_stall
          (fun c => interest_score data c ints)
          (((route.drop 1).dropLast).map (fun c => interest_score data c ints)).sum
          ((total : ℤ) - (MIN_DAYS_PER_COUNTRY : ℤ) * ((route.drop 1).dropLast).length)
          (fun hc => hr hc.2) ((route.drop 1).dropLast)
          (dd_min_assign ((route.drop 1).dropLast))
        rw [hstall]
        have hm0sum : vals_sum (dd_min_assign ((route.drop 1).dropLast)) =
            MIN_DAYS_PER_COUNTRY * ((route.drop 1).dropLast).length := by
          rw [dd_min_assign_eq ((route.drop 1).dropLast) hnd, vals_sum_map_pair]
          ring
        have hlz : (total : ℤ) -
            (vals_sum (dd_min_assign ((route.drop 1).dropLast)) : ℤ) = 0 := by
          rw [hm0sum]
          omega
        rw [hlz, leftover_pass_nonpos _ _ _ (by norm_num)]
        rw [hm0sum]
        omega


/-- Claim C1 witness: the amended theorem applied to a concrete
proportional-branch instance (two interior stops matching one interest,
five days: allocation {A: 3, B: 2} sums to 5 exactly). -/
theorem claim_C1_witness :
    (¬ ((["H", "A", "B", "H"] : List String).drop 1).dropLast = []) ∧
    (((["H", "A", "B", "H"] : List String).drop 1).dropLast).Nodup ∧
    MIN_DAYS_PER_COUNTRY * (((["H", "A", "B", "H"] : List String).drop 1).dropLast).length ≤ 5 ∧
    (∀ p ∈ distribute_days pcat 5 ["H", "A", "B", "H"] ["x"],
      MIN_DAYS_PER_COUNTRY ≤ p.2) ∧
    ((((["H", "A", "B", "H"] : List String).drop 1).dropLast).map
      (fun c => interest_score pcat c ["x"])).sum ≠ 0 ∧
    vals_sum (distribute_days pcat 5 ["H", "A", "B", "H"] ["x"]) = 5 := by
  refine ⟨by decide, by decide, by decide, ?_, by decide, ?_⟩
  · exact (claim_C1_amended pcat 5 ["H", "A", "B", "H"] ["x"]
      (by decide) (by decide) (by decide)).1
  · exact (claim_C1_amended pcat 5 ["H", "A", "B", "H"] ["x"]
      (by decide) (by decide) (by decide)).2.1 (by decide)

/- ── Claim C3: enforcer termination and shrinkage ──────────────────── -/

/-- An empty working set returns immediately, whatever the iteration
budget. -/
theorem enforce_budget_loop_nil (dist : String → String → ℚ) (data : String → CountryData)
    (home : String) (budget : ℚ) (ints : List String) (fuel : ℕ)
    (warnings : List BudgetWarning) :
    enforce_budget_loop dist data home budget ints fuel [] warnings =
      some ([], warnings, []) := by
  cases fuel <;> rfl

/-- One-step unfolding of the enforcement loop at positive fuel. -/
theorem enforce_budget_loop_succ (dist : String → String → ℚ) (data : String → CountryData)
    (home : String) (budget : ℚ) (ints : List String) (fuel : ℕ)
    (working : List String) (warnings : List BudgetWarning) :
    enforce_budget_loop dist data home budget ints (fuel + 1) working warnings =
      if working = [] then some (working, warnings, [])
      else if iteration_cost dist data home ints working ≤ budget then
        some (working, warnings,
          distribute_days data (max (working.length * MIN_DAYS_PER_COUNTRY) 1)
            (solve_tsp dist working home) ints)
      else if working.length ≤ 1 then
        some ([], warnings ++
          [BudgetWarning.insufficient budget (iteration_cost dist data home ints working)], [])
      else
        enforce_budget_loop dist data home budget ints fuel
          (working.erase (find_worst_value data working ints))
          (warnings ++ [BudgetWarning.removed (find_worst_value data working ints)
            (calculate_country_cost_total data (find_worst_value data working ints)
              MIN_DAYS_PER_COUNTRY)]) := rfl

/-- Claim C3: the Budget Enforcer loop (a) terminates within
`initial_count` iterations (an iteration budget equal to the working-set
size always returns a result), (b) on every over-budget iteration with
more than one destination removes the worst-value destination, strictly
shrinking the working set by exactly one, and (c) when a single
destination still exceeds the budget, returns an empty final result plus a
warning stating the minimum cost required. -/
theorem claim_C3 (dist : String → String → ℚ) (data : String → CountryData)
    (home : String) (budget : ℚ) (ints : List String) :
    (∀ (working : List String) (warnings : List BudgetWarning),
      (enforce_budget_loop dist data home budget ints
        working.length working warnings).isSome = true) ∧
    (∀ (working : List String) (warnings : List BudgetWarning) (fuel : ℕ),
      budget < iteration_cost dist data home ints working → 1 < working.length →
      enforce_budget_loop dist data home budget ints (fuel + 1) working warnings =
        enforce_budget_loop dist data home budget ints fuel
          (working.erase (find_worst_value data working ints))
          (warnings ++ [BudgetWarning.removed (find_worst_value data working ints)
            (calculate_country_cost_total data (find_worst_value data working ints)
              MIN_DAYS_PER_COUNTRY)]) ∧
      (working.erase (find_worst_value data working ints)).length + 1 = working.length) ∧
    (∀ (working : List String) (warnings : List BudgetWarning) (fuel : ℕ),
      working.length = 1 → budget < iteration_cost dist data home ints working →
      enforce_budget_loop dist data home budget ints (fuel + 1) working warnings =
        some ([], warnings ++
          [BudgetWarning.insufficient budget (iteration_cost dist data home ints working)],
          [])) := by
  refine ⟨?_, ?_, ?_⟩
  · have main : ∀ (n : ℕ) (working : List String), working.length = n →
        ∀ warnings, (enforce_budget_loop dist data home budget ints
          n working warnings).isSome = true := by
      intro n
      induction n using Nat.strong_induction_on with
      | _ n ih =>
        intro working hlen warnings
        cases working with
        | nil =>
          rw [enforce_budget_loop_nil]
          rfl
        | cons x xs =>
          have hn : n = xs.length + 1 := by
            rw [← hlen]
            rfl
          subst hn
          rw [enforce_budget_loop_succ]
          rw [if_neg (by simp : ¬ (x :: xs) = [])]
          by_cases hc : iteration_cost dist data home ints (x :: xs) ≤ budget
          · rw [if_pos hc]
            rfl
          · rw [if_neg hc]
            by_cases h1 : (x :: xs).length ≤ 1
            · rw [if_pos h1]
              rfl
            · rw [if_neg h1]
              have hmem := find_worst_value_mem data (x :: xs) ints (by simp)
              have hlen2 : ((x :: xs).erase (find_worst_value data (x :: xs) ints)).length =
                  xs.length := by
                rw [List.length_erase_of_mem hmem]
                rfl
              exact ih xs.length (by omega) _ hlen2 _
    intro working warnings
    exact main working.length working rfl warnings
  · intro working warnings fuel hcost hlen
    have hne : ¬ working = [] := by
      intro h
      rw [h] at hlen
      exact absurd hlen (by simp)
    have hmem := find_worst_value_mem data working ints hne
    refine ⟨?_, ?_⟩
    · rw [enforce_budget_loop_succ, if_neg hne, if_neg (not_le.mpr hcost),
        if_neg (by omega : ¬ working.length ≤ 1)]
    · rw [List.length_erase_of_mem hmem]
      omega
  · intro working warnings fuel hlen hcost
    have hne : ¬ working = [] := by
      intro h
      rw [h] at hlen
      exact absurd hlen (by simp)
    rw [enforce_budget_loop_succ, if_neg hne, if_neg (not_le.mpr hcost),
      if_pos (by omega : working.length ≤ 1)]


/-- Claim C3 witness: a single destination whose minimum trip cost (300)
exceeds the budget (100) makes the loop return the empty result and the
insufficiency warning, by `claim_C3` applied at this input. -/
theorem claim_C3_witness :
    (["A"] : List String).length = 1 ∧
    (100 : ℚ) < iteration_cost zeroDist pcat "H" ["w"] ["A"] ∧
    enforce_budget_loop zeroDist pcat "H" 100 ["w"] 1 ["A"] [] =
      some ([], [BudgetWarning.insufficient 100
        (iteration_cost zeroDist pcat "H" ["w"] ["A"])], []) := by
  have hcost : iteration_cost zeroDist pcat "H" ["w"] ["A"] = 300 := by
    have hroute : solve_tsp zeroDist ["A"] "H" = ["H", "A", "H"] := by decide
    have hdd : distribute_days pcat 2 ["H", "A", "H"] ["w"] = [("A", 2)] := by decide
    unfold iteration_cost
    rw [hroute]
    show calculate_total_cost pcat ["H", "A", "H"]
      (distribute_days pcat 2 ["H", "A", "H"] ["w"]) = 300
    rw [hdd]
    have hdg : dict_get [("A", 2)] "A" MIN_DAYS_PER_COUNTRY = 2 := by decide
    have eA : pcat "A" = ⟨100, 50, ["x"]⟩ := rfl
    unfold calculate_total_cost calculate_country_cost_total
    simp only [List.drop_succ_cons, List.drop_zero, List.dropLast_cons₂,
      List.dropLast_single, List.map_cons, List.map_nil, List.sum_cons, List.sum_nil,
      hdg, eA, List.length_cons]
    norm_num [List.getD, eA]
  refine ⟨rfl, by rw [hcost]; norm_num, ?_⟩
  have := (claim_C3 zeroDist pcat "H" 100 ["w"]).2.2 ["A"] [] 0 rfl
    (by rw [hcost]; norm_num)
  simpa using this

/- ── Claim C4: route validity ──────────────────────────────────────── -/

/-- Python `min` returns an element of its (nonempty) argument. -/
theorem py_min_by_mem (key : String → ℚ) (x : String) (xs : List String) :
    py_min_by key (x :: xs) ∈ x :: xs := by
  unfold py_min_by
  have main : ∀ (l : List String) (acc : String), acc ∈ x :: xs →
      (∀ c ∈ l, c ∈ x :: xs) →
      l.foldl (fun best c => if key c < key best then c else best) acc ∈ x :: xs := by
    intro l
    induction l with
    | nil => intro acc h _; exact h
    | cons c l ih =>
      intro acc h hsub
      simp only [List.foldl_cons]
      by_cases hc : key c < key acc
      · rw [if_pos hc]
        exact ih c (hsub c (List.mem_cons_self c l)) (fun d hd => hsub d (List.mem_cons_of_mem c hd))
      · rw [if_neg hc]
        exact ih acc h (fun d hd => hsub d (List.mem_cons_of_mem c hd))
  exact main xs x (List.mem_cons_self x xs) (fun c hc => List.mem_cons_of_mem x hc)

/-- The nearest-neighbour loop visits exactly the destinations it is
given, in some order. -/
theorem nn_loop_perm (dist : String → String → ℚ) :
    ∀ (n : ℕ) (l : List String) (cur : String), l.length ≤ n →
      (nn_loop dist n l cur).Perm l := by
  intro n
  induction n with
  | zero =>
    intro l cur hl
    rw [List.length_eq_zero.mp (Nat.le_zero.mp hl)]
    exact List.Perm.refl _
  | succ n ih =>
    intro l cur hl
    cases l with
    | nil => exact List.Perm.refl _
    | cons x xs =>
      unfold nn_loop
      have hmem := py_min_by_mem (dist cur) x xs
      have hlen : ((x :: xs).erase (py_min_by (dist cur) (x :: xs))).length ≤ n := by
        rw [List.length_erase_of_mem hmem]
        simp only [List.length_cons] at hl ⊢
        omega
      have hperm := ih ((x :: xs).erase (py_min_by (dist cur) (x :: xs)))
        (py_min_by (dist cur) (x :: xs)) hlen
      exact (hperm.cons _).trans (List.perm_cons_erase hmem).symm

/-- A 2-opt segment reversal permutes the route. -/
theorem reverse_segment_perm (l : List String) (i j : ℕ) (hij : i ≤ j + 1) :
    (reverse_segment l i j).Perm l := by
  have h1 : (l.drop i).drop (j + 1 - i) = l.drop (j + 1) := by
    rw [List.drop_drop]
    congr 1
    omega
  have h2 : (l.drop i).take (j + 1 - i) ++ l.drop (j + 1) = l.drop i := by
    rw [← h1, List.take_append_drop]
  have hsplit : l.take i ++ ((l.drop i).take (j + 1 - i) ++ l.drop (j + 1)) = l := by
    rw [h2, List.take_append_drop]
  have hp : (reverse_segment l i j).Perm
      (l.take i ++ ((l.drop i).take (j + 1 - i) ++ l.drop (j + 1))) := by
    unfold reverse_segment
    rw [List.append_assoc]
    exact List.Perm.append_left _ (List.Perm.append_right _ (List.reverse_perm _))
  rw [hsplit] at hp
  exact hp

/-- A 2-opt reversal starting at index ≥ 1 keeps the first element. -/
theorem reverse_segment_head (l : List String) (i j : ℕ) (hi : 1 ≤ i) :
    (reverse_segment l i j).head? = l.head? := by
  cases l with
  | nil => simp [reverse_segment]
  | cons x xs =>
    unfold reverse_segment
    cases i with
    | zero => omega
    | succ i =>
      simp only [List.take_succ_cons, List.cons_append, List.head?_cons, List.head?]

/-- Dropping a strict prefix keeps the last element. -/
theorem getLast?_of_drop (l : List String) (k : ℕ) (hk : k < l.length) :
    (l.drop k).getLast? = l.getLast? := by
  have hne : l.drop k ≠ [] := by
    intro h
    rw [List.drop_eq_nil_iff] at h
    omega
  conv =>
    right
    rw [← List.take_append_drop k l]
  rw [List.getLast?_append]
  cases hgl : (l.drop k).getLast? with
  | none => exact absurd (List.getLast?_eq_none_iff.mp hgl) hne
  | some a => rfl

/-- A 2-opt reversal ending before the last index keeps the last
element. -/
theorem reverse_segment_last (l : List String) (i j : ℕ) (hj : j + 1 < l.length) :
    (reverse_segment l i j).getLast? = l.getLast? := by
  unfold reverse_segment
  rw [List.append_assoc, List.getLast?_append, List.getLast?_append]
  have hne : l.drop (j + 1) ≠ [] := by
    intro h
    rw [List.drop_eq_nil_iff] at h
    omega
  cases hgl : (l.drop (j + 1)).getLast? with
  | none => exact absurd (List.getLast?_eq_none_iff.mp hgl) hne
  | some a =>
    rw [← getLast?_of_drop l (j + 1) hj, hgl]
    rfl

/-- Index bounds of the 2-opt scan ranges. -/
theorem two_opt_pairs_mem (n i j : ℕ) (h : (i, j) ∈ two_opt_pairs n) :
    1 ≤ i ∧ i < j ∧ j + 1 ≤ n - 1 := by
  unfold two_opt_pairs at h
  simp only [List.mem_flatMap, List.mem_map, List.mem_range'] at h
  obtain ⟨a, ⟨k, hk, hak⟩, ⟨b, ⟨m, hm, hbm⟩, heq⟩⟩ := h
  injection heq with h1 h2
  omega

/-- One 2-opt rewrite step preserves the route invariant. -/
theorem two_opt_step_inv (dist : String → String → ℚ) (r0 : List String)
    (h5 : 5 ≤ r0.length) (acc : List String × ℚ × Bool) (ij : ℕ × ℕ)
    (hinv : RouteInv r0 acc.1) (hij : ij ∈ two_opt_pairs r0.length) :
    RouteInv r0 (two_opt_step dist acc ij).1 := by
  obtain ⟨hperm, hhead, hlast⟩ := hinv
  obtain ⟨hi, hij2, hj⟩ := two_opt_pairs_mem r0.length ij.1 ij.2 (by
    cases ij
    exact hij)
  have hlen : acc.1.length = r0.length := hperm.length_eq
  show RouteInv r0
    ((if route_total_distance dist (reverse_segment acc.1 ij.1 ij.2) < acc.2.1 then
      (reverse_segment acc.1 ij.1 ij.2,
        route_total_distance dist (reverse_segment acc.1 ij.1 ij.2), true)
      else acc)).1
  by_cases hc : route_total_distance dist (reverse_segment acc.1 ij.1 ij.2) < acc.2.1
  · rw [if_pos hc]
    refine ⟨(reverse_segment_perm _ _ _ (by omega)).trans hperm,
      (reverse_segment_head _ _ _ (by omega)).trans hhead,
      (reverse_segment_last _ _ _ (by omega)).trans hlast⟩
  · rw [if_neg hc]
    exact ⟨hperm, hhead, hlast⟩

/-- One full 2-opt pass preserves the route invariant. -/
theorem two_opt_pass_inv (dist : String → String → ℚ) (r0 : List String)
    (h5 : 5 ≤ r0.length) (best : List String) (bd : ℚ)
    (hinv : RouteInv r0 best) :
    RouteInv r0 (two_opt_pass dist best bd).1 := by
  unfold two_opt_pass
  rw [hinv.1.length_eq]
  have main : ∀ (ps : List (ℕ × ℕ)) (acc : List String × ℚ × Bool),
      (∀ ij ∈ ps, ij ∈ two_opt_pairs r0.length) → RouteInv r0 acc.1 →
      RouteInv r0 (ps.foldl (two_opt_step dist) acc).1 := by
    intro ps
    induction ps with
    | nil => intro acc _ h; exact h
    | cons ij ps ih =>
      intro acc hsub hinv
      simp only [List.foldl_cons]
      exact ih _ (fun x hx => hsub x (List.mem_cons_of_mem _ hx))
        (two_opt_step_inv dist r0 h5 acc ij hinv (hsub ij (List.mem_cons_self _ _)))
  exact main _ _ (fun ij h => h) hinv

/-- The bounded 2-opt loop preserves the route invariant. -/
theorem two_opt_loop_inv (dist : String → String → ℚ) (r0 : List String)
    (h5 : 5 ≤ r0.length) :
    ∀ (fuel : ℕ) (best : List String) (bd : ℚ), RouteInv r0 best →
      RouteInv r0 (two_opt_loop dist fuel best bd) := by
  intro fuel
  induction fuel with
  | zero => intro best bd h; exact h
  | succ fuel ih =>
    intro best bd hinv
    have hp := two_opt_pass_inv dist r0 h5 best bd hinv
    show RouteInv r0
      (if (two_opt_pass dist best bd).2.2 then
        two_opt_loop dist fuel (two_opt_pass dist best bd).1 (two_opt_pass dist best bd).2.1
      else (two_opt_pass dist best bd).1)
    by_cases hc : (two_opt_pass dist best bd).2.2 = true
    · rw [if_pos hc]
      exact ih _ _ hp
    · rw [if_neg hc]
      exact hp

/-- `two_opt_improve` returns a permutation of its input route with the
same first and last elements. -/
theorem two_opt_improve_inv (dist : String → String → ℚ) (route : List String) :
    RouteInv route (two_opt_improve dist route) := by
  unfold two_opt_improve
  by_cases h : route.length ≤ 4
  · rw [if_pos h]
    exact ⟨List.Perm.refl _, rfl, rfl⟩
  · rw [if_neg h]
    exact two_opt_loop_inv dist route (by omega) _ _ _ ⟨List.Perm.refl _, rfl, rfl⟩

/-- The empty selection routes to `[home, home]`. -/
theorem solve_tsp_nil (dist : String → String → ℚ) (home : String) :
    solve_tsp dist [] home = [home, home] := rfl

/-- Claim C4: for a duplicate-free selection not containing home,
`solve_tsp` (nearest neighbour + 2-opt) returns a route of length `k + 2`
that starts and ends with home and whose interior is a permutation of the
selection (each destination exactly once, no duplicates); the empty
selection yields `[home, home]`. -/
theorem claim_C4 (dist : String → String → ℚ) (countries : List String)
    (home : String) (hnd : countries.Nodup) (hnh : home ∉ countries) :
    (solve_tsp dist countries home).length = countries.length + 2 ∧
    (solve_tsp dist countries home).head? = some home ∧
    (solve_tsp dist countries home).getLast? = some home ∧
    (((solve_tsp dist countries home).drop 1).dropLast).Perm countries ∧
    (((solve_tsp dist countries home).drop 1).dropLast).Nodup ∧
    solve_tsp dist [] home = [home, home] := by
  have hfilter : countries.filter (fun c => c ≠ home) = countries :=
    List.filter_eq_self.mpr (fun c hc => by
      simp only [ne_eq, decide_not, Bool.not_eq_true', decide_eq_false_iff_not]
      intro h
      exact hnh (h ▸ hc))
  cases countries with
  | nil =>
    exact ⟨rfl, rfl, rfl, List.Perm.refl _, List.nodup_nil, rfl⟩
  | cons x xs =>
    have hr1 : nearest_neighbor_tsp dist (x :: xs) home =
        [home] ++ nn_loop dist (x :: xs).length (x :: xs) home ++ [home] := by
      unfold nearest_neighbor_tsp
      rw [hfilter, if_neg (by simp)]
    have hbody : (nn_loop dist (x :: xs).length (x :: xs) home).Perm (x :: xs) :=
      nn_loop_perm dist (x :: xs).length (x :: xs) home (le_refl _)
    have hblen := hbody.length_eq
    have hsolve : solve_tsp dist (x :: xs) home =
        two_opt_improve dist
          ([home] ++ nn_loop dist (x :: xs).length (x :: xs) home ++ [home]) := by
      unfold solve_tsp
      rw [hr1]
    obtain ⟨hperm, hhead, hlast⟩ := two_opt_improve_inv dist
      ([home] ++ nn_loop dist (x :: xs).length (x :: xs) home ++ [home])
    rw [hsolve]
    have hr1head : (([home] ++ nn_loop dist (x :: xs).length (x :: xs) home ++ [home])).head? =
        some home := by simp
    have hr1last : (([home] ++ nn_loop dist (x :: xs).length (x :: xs) home ++ [home])).getLast? =
        some home := List.getLast?_concat _
    have hr1len : (([home] ++ nn_loop dist (x :: xs).length (x :: xs) home ++ [home])).length =
        (x :: xs).length + 2 := by
      simp only [List.length_cons] at hblen
      simp only [List.length_append, List.length_cons, List.length_nil]
      omega
    rw [hr1head] at hhead
    rw [hr1last] at hlast
    have hlenR := hperm.length_eq
    rw [hr1len] at hlenR
    cases hR : two_opt_improve dist
        ([home] ++ nn_loop dist (x :: xs).length (x :: xs) home ++ [home]) with
    | nil =>
      rw [hR] at hhead
      exact absurd hhead (by simp)
    | cons a t =>
      rw [hR] at hhead hlast hperm hlenR
      have ha : a = home := by
        simp only [List.head?_cons, Option.some.injEq] at hhead
        exact hhead
      rw [ha] at hperm hlast hlenR ⊢
      have htne : t ≠ [] := by
        intro h
        rw [h] at hlenR
        simp at hlenR
      have hcons_last : (home :: t).getLast? = t.getLast?.or (some home) := by
        rw [show home :: t = [home] ++ t from rfl, List.getLast?_append]
        rfl
      have htlast : t.getLast? = some home := by
        rw [hcons_last] at hlast
        cases hgl : t.getLast? with
        | none => exact absurd (List.getLast?_eq_none_iff.mp hgl) htne
        | some y =>
          rw [hgl] at hlast
          simp only [Option.or_some, Option.some.injEq] at hlast
          rw [hlast]
      have htdec : t.dropLast ++ [home] = t := by
        have h1 := List.dropLast_append_getLast htne
        have h2 : t.getLast htne = home := by
          rw [List.getLast?_eq_getLast t htne] at htlast
          simpa using htlast
        rw [h2] at h1
        exact h1
      have hmid : t.dropLast.Perm (x :: xs) := by
        have hcons : (home :: t).Perm
            (home :: (nn_loop dist (x :: xs).length (x :: xs) home ++ [home])) := by
          simpa using hperm
        have ht2 := hcons.cons_inv
        rw [← htdec] at ht2
        exact ((List.perm_append_right_iff [home]).mp ht2).trans hbody
      have hint : ((home :: t).drop 1).dropLast = t.dropLast := by simp
      refine ⟨by rw [hlenR], by simp, ?_, ?_, ?_, rfl⟩
      · rw [hcons_last, htlast]
        rfl
      · rw [hint]
        exact hmid
      · rw [hint]
        exact hmid.nodup_iff.mpr hnd

/-- Claim C4 witness: the route-validity theorem applied to a concrete
one-destination selection. -/
theorem claim_C4_witness :
    (["A"] : List String).Nodup ∧ "H" ∉ (["A"] : List String) ∧
    (solve_tsp zeroDist ["A"] "H").length = (["A"] : List String).length + 2 ∧
    (solve_tsp zeroDist ["A"] "H").head? = some "H" ∧
    (solve_tsp zeroDist ["A"] "H").getLast? = some "H" ∧
    (((solve_tsp zeroDist ["A"] "H").drop 1).dropLast).Perm ["A"] := by
  have h := claim_C4 zeroDist ["A"] "H" (by decide) (by decide)
  exact ⟨by decide, by decide, h.1, h.2.1, h.2.2.1, h.2.2.2.1⟩
